import Mathlib

/-!
# Verification of the VP-Web-Search core against its specification

Shallow embedding of the core data model and operations of the repository
(similarity router, web acquisition / dedup store, pagination crawler,
snippet lifecycle, case orchestrator, webhook sender), translated from the
Python sources in `app/`, together with theorems settling the spec claims.

Conventions of the embedding:
* Python strings are Lean `String`; python slicing `s[:n]` is `pyTake s n`.
* Relevance scores (floats that are only ever compared) are rationals `ℚ`.
* The SHA-256 content hasher `_hash_text` is an abstract function
  parameter `hash : String → String`; where a claim depends on
  collision-freedom this appears as an explicit hypothesis.
* External collaborators (Tavily search, HTTP fetches, the LLM) are
  modelled as explicit oracle parameters / outcome values; a Python
  function that can raise is embedded as an `Except`-valued function.
* Chroma metadata dictionaries are ordered association lists `Meta`.
-/

namespace VPWeb

/-- Python slicing `s[:n]` on strings. -/
def pyTake (s : String) (n : Nat) : String := String.mk (s.data.take n)

theorem pyTake_length_le (s : String) (n : Nat) : (pyTake s n).length ≤ n := by
  show (s.data.take n).length ≤ n
  exact List.length_take_le _ _

/-- Python `s.strip()`: drop whitespace from both ends. -/
def pyStrip (s : String) : String :=
  String.mk (((s.data.dropWhile Char.isWhitespace).reverse.dropWhile
    Char.isWhitespace).reverse)

/-- Python `s.lower()`. -/
def pyLower (s : String) : String := String.mk (s.data.map Char.toLower)

/-- Contiguous-sublist test over character lists. -/
def listIsInfixOf : List Char → List Char → Bool
  | pat, [] => pat.isEmpty
  | pat, l@(_ :: t) => pat.isPrefixOf l || listIsInfixOf pat t

/-- Python `pat in s` substring membership. -/
def strContains (s pat : String) : Bool := listIsInfixOf pat.data s.data

/-- Python `s.endswith(pat)`. -/
def strEndsWith (s pat : String) : Bool := pat.data.isSuffixOf s.data

/-- Python `s.rstrip("/")`. -/
def rstripSlashes (s : String) : String :=
  String.mk ((s.data.reverse.dropWhile (fun c => c = '/')).reverse)

/-- Values storable in Chroma metadata (primitive types only). -/
inductive MetaVal where
  | s : String → MetaVal
  | b : Bool → MetaVal
deriving DecidableEq, Repr

/-- A Chroma metadata dictionary: an ordered association list. -/
abbrev Meta := List (String × MetaVal)

/-- Python `dict[k] = v`: replace the binding in place, else append. -/
def setKey : Meta → String → MetaVal → Meta
  | [], k, v => [(k, v)]
  | (k', v') :: rest, k, v =>
    if k' = k then (k, v) :: rest else (k', v') :: setKey rest k v

/-- Python `dict.get(k)`. -/
def getKey (m : Meta) (k : String) : Option MetaVal :=
  (m.find? (fun p => p.1 == k)).map (fun p => p.2)

theorem getKey_cons (x : String × MetaVal) (m : Meta) (k : String) :
    getKey (x :: m) k = if x.1 = k then some x.2 else getKey m k := by
  by_cases h : x.1 = k
  · rw [getKey, List.find?_cons_of_pos _ (by simpa using h), if_pos h]
    rfl
  · rw [getKey, List.find?_cons_of_neg _ (by simpa using h), if_neg h]
    rfl

theorem getKey_setKey_same (m : Meta) (k : String) (v : MetaVal) :
    getKey (setKey m k v) k = some v := by
  induction m with
  | nil => simp [setKey, getKey_cons]
  | cons p rest ih =>
    obtain ⟨a, b⟩ := p
    simp only [setKey]
    by_cases h : a = k
    · rw [if_pos h, getKey_cons]
      simp
    · rw [if_neg h, getKey_cons, if_neg h]
      exact ih

theorem getKey_setKey_other (m : Meta) (k k' : String) (v : MetaVal) (hne : k' ≠ k) :
    getKey (setKey m k v) k' = getKey m k' := by
  induction m with
  | nil =>
    simp only [setKey]
    rw [getKey_cons, if_neg (Ne.symm hne)]
  | cons p rest ih =>
    obtain ⟨a, b⟩ := p
    simp only [setKey]
    by_cases h : a = k
    · subst h
      rw [if_pos rfl, getKey_cons, getKey_cons, if_neg (Ne.symm hne)]
      rw [if_neg (Ne.symm hne)]
    · rw [if_neg h, getKey_cons, getKey_cons]
      by_cases h2 : a = k'
      · rw [if_pos h2, if_pos h2]
      · rw [if_neg h2, if_neg h2]
        exact ih

/-! ## C2 — SimilarityRouter (`vector_search` in `app/tools/agent_tools.py`) -/

/-- A document stored in the vector store. -/
structure StoredDoc where
  pageContent : String
  metadata : Meta
deriving DecidableEq, Repr

/-- One entry of the `hits` list returned by `vector_search`. -/
structure Hit where
  content : String
  metadata : Meta
  score : ℚ
deriving DecidableEq, Repr

/-- The dictionary returned by `vector_search`. -/
structure RouteOutput where
  route : String
  query : String
  hits : List Hit
  scores : List ℚ
deriving DecidableEq, Repr

/-- Embedding of `vector_search(query, top_k, min_relevance)`:
`similarity_search_with_relevance_scores` is the oracle `simSearch`; the
function reads the store, builds `hits`/`scores`, and routes
`"HIT"` iff some score is `≥ min_relevance`.  The store is threaded
through unchanged (the body performs no store writes). -/
def vector_search (store : List StoredDoc)
    (simSearch : String → Nat → List (StoredDoc × ℚ))
    (query : String) (top_k : Nat) (min_relevance : ℚ) :
    RouteOutput × List StoredDoc :=
  let results := simSearch query top_k
  let hits : List Hit := results.map (fun p => ⟨p.1.pageContent, p.1.metadata, p.2⟩)
  let scores : List ℚ := results.map (fun p => p.2)
  let route := if scores.any (fun s => decide (min_relevance ≤ s)) then "HIT" else "MISS"
  (⟨route, query, hits, scores⟩, store)

/-! ## C8 — WebhookSender (`_send_webhook` in `app/api/routes.py`) -/

/-- Outcome of the single HTTP POST attempt. -/
inductive HttpOutcome where
  | resp : Nat → HttpOutcome
  | timeout : HttpOutcome
  | connError : String → HttpOutcome
deriving DecidableEq, Repr

/-- An HTTP POST request issued by the webhook sender. -/
structure PostRequest where
  url : String
  contentType : String
  timeoutSecs : ℚ
deriving DecidableEq, Repr

/-- Result of `_send_webhook`: the POSTs issued and the returned boolean. -/
structure WebhookCall where
  posts : List PostRequest
  ok : Bool
deriving DecidableEq, Repr

/-- Embedding of `_send_webhook(payload, webhook_url)`.  An unset URL is
the empty string (Python falsiness of `None`/`""`).  The function never
raises: timeouts and connection errors are caught and map to `false`. -/
def sendWebhook (configUrl : String) (webhookTimeout : ℚ)
    (webhookUrl : String) (http : HttpOutcome) : WebhookCall :=
  let url := if webhookUrl ≠ "" then webhookUrl else configUrl
  if url = "" then ⟨[], false⟩
  else
    let req : PostRequest := ⟨url, "application/json", webhookTimeout⟩
    match http with
    | .resp status =>
      if status = 200 ∨ status = 201 ∨ status = 202 then ⟨[req], true⟩
      else ⟨[req], false⟩
    | .timeout => ⟨[req], false⟩
    | .connError _ => ⟨[req], false⟩

theorem sendWebhook_shape (configUrl : String) (wt : ℚ) (webhookUrl : String)
    (http : HttpOutcome) :
    sendWebhook configUrl wt webhookUrl http = ⟨[], false⟩ ∨
      ∃ u b, sendWebhook configUrl wt webhookUrl http =
        ⟨[⟨u, "application/json", wt⟩], b⟩ := by
  simp only [sendWebhook]
  repeat' split
  all_goals
    first
      | exact Or.inl rfl
      | exact Or.inr ⟨_, _, rfl⟩

/-- C2: for every query and every (document, score) list returned by the
vector store, `vector_search` routes `"HIT"` iff some score is
`≥ min_relevance` (equivalently, iff the maximum score is `≥ min_relevance`,
the boundary `score = threshold` yielding HIT); an empty result list routes
`"MISS"`; and the store is left unchanged (no writes). -/
theorem c2_similarity_router_decision
    (store : List StoredDoc) (simSearch : String → Nat → List (StoredDoc × ℚ))
    (query : String) (top_k : Nat) (min_relevance : ℚ) :
    (((vector_search store simSearch query top_k min_relevance).1.route = "HIT" ↔
        ∃ s ∈ (vector_search store simSearch query top_k min_relevance).1.scores,
          min_relevance ≤ s)
      ∧ (∀ m : ℚ,
          (vector_search store simSearch query top_k min_relevance).1.scores.maximum = some m →
          ((vector_search store simSearch query top_k min_relevance).1.route = "HIT" ↔
            min_relevance ≤ m))
      ∧ ((vector_search store simSearch query top_k min_relevance).1.scores = [] →
          (vector_search store simSearch query top_k min_relevance).1.route = "MISS")
      ∧ (vector_search store simSearch query top_k min_relevance).2 = store) := by
  have hscores : (vector_search store simSearch query top_k min_relevance).1.scores =
      (simSearch query top_k).map (fun p => p.2) := rfl
  have hroute : (vector_search store simSearch query top_k min_relevance).1.route =
      (if ((simSearch query top_k).map (fun p => p.2)).any
          (fun s => decide (min_relevance ≤ s)) then "HIT" else "MISS") := rfl
  have key : (vector_search store simSearch query top_k min_relevance).1.route = "HIT" ↔
      ∃ s ∈ (simSearch query top_k).map (fun p => p.2), min_relevance ≤ s := by
    rw [hroute]
    by_cases h : ((simSearch query top_k).map (fun p => p.2)).any
        (fun s => decide (min_relevance ≤ s)) = true
    · rw [if_pos h]
      simp only [true_iff]
      obtain ⟨s, hs, hp⟩ := List.any_eq_true.mp h
      exact ⟨s, hs, of_decide_eq_true hp⟩
    · rw [if_neg h]
      constructor
      · intro hcon; exact absurd hcon (by decide)
      · rintro ⟨s, hs, hle⟩
        exact absurd (List.any_eq_true.mpr ⟨s, hs, decide_eq_true hle⟩) h
  refine ⟨by rw [hscores]; exact key, ?_, ?_, rfl⟩
  · intro m hm
    rw [key]
    constructor
    · rintro ⟨s, hs, hle⟩
      exact le_trans hle (List.le_maximum_of_mem hs (hscores ▸ hm))
    · intro hle
      exact ⟨m, hscores ▸ List.maximum_mem hm, hle⟩
  · intro hempty
    rw [hscores] at hempty
    rw [hroute, hempty]
    simp

/-- Closed witness for C2: a single score 4/5 against threshold 3/4 routes
HIT, and a boundary score equal to the threshold also routes HIT. -/
theorem c2_similarity_router_decision_witness :
    (vector_search [] (fun _ _ => [(⟨"d", []⟩, (4 : ℚ)/5)]) "q" 5 ((3 : ℚ)/4)).1.route = "HIT"
      ∧ (vector_search [] (fun _ _ => [(⟨"d", []⟩, (3 : ℚ)/4)]) "q" 5 ((3 : ℚ)/4)).1.route
          = "HIT" := by
  constructor
  · exact (c2_similarity_router_decision [] (fun _ _ => [(⟨"d", []⟩, (4 : ℚ)/5)]) "q" 5
      ((3 : ℚ)/4)).1.mpr ⟨(4 : ℚ)/5, by simp [vector_search], by norm_num⟩
  · exact (c2_similarity_router_decision [] (fun _ _ => [(⟨"d", []⟩, (3 : ℚ)/4)]) "q" 5
      ((3 : ℚ)/4)).1.mpr ⟨(3 : ℚ)/4, by simp [vector_search], le_refl _⟩

/-- C8: every delivery attempt of `_send_webhook` performs at most one
HTTP POST, always with `Content-Type: application/json` and the configured
timeout; with a URL configured, the call returns `true` exactly when the
response status is 200, 201 or 202; it returns `false` (and never raises —
the embedding is a total function) on any other status, on timeout, on
connection error, and when no webhook URL is configured (in which case no
POST is performed at all). -/
theorem c8_webhook_delivery_contract (configUrl : String) (webhookTimeout : ℚ)
    (webhookUrl : String) (http : HttpOutcome) :
    ((sendWebhook configUrl webhookTimeout webhookUrl http).posts.length ≤ 1)
    ∧ (∀ req ∈ (sendWebhook configUrl webhookTimeout webhookUrl http).posts,
        req.contentType = "application/json" ∧ req.timeoutSecs = webhookTimeout)
    ∧ (∀ status, http = .resp status → ¬(webhookUrl = "" ∧ configUrl = "") →
        ((sendWebhook configUrl webhookTimeout webhookUrl http).ok = true ↔
          (status = 200 ∨ status = 201 ∨ status = 202)))
    ∧ (http = .timeout → (sendWebhook configUrl webhookTimeout webhookUrl http).ok = false)
    ∧ (∀ e, http = .connError e →
        (sendWebhook configUrl webhookTimeout webhookUrl http).ok = false)
    ∧ (webhookUrl = "" → configUrl = "" →
        (sendWebhook configUrl webhookTimeout webhookUrl http).posts = []
          ∧ (sendWebhook configUrl webhookTimeout webhookUrl http).ok = false) := by
  refine ⟨?_, ?_, ?_, ?_, ?_, ?_⟩
  · rcases sendWebhook_shape configUrl webhookTimeout webhookUrl http with h | ⟨u, b, h⟩ <;>
      simp [h]
  · intro req hreq
    rcases sendWebhook_shape configUrl webhookTimeout webhookUrl http with h | ⟨u, b, h⟩
    · rw [h] at hreq
      simp at hreq
    · rw [h] at hreq
      simp at hreq
      subst hreq
      exact ⟨rfl, rfl⟩
  · intro status heq hurl
    subst heq
    have hurl' : (if webhookUrl ≠ "" then webhookUrl else configUrl) ≠ "" := by
      by_cases hw : webhookUrl = ""
      · rw [if_neg (by simp [hw])]
        exact fun hcfg => hurl ⟨hw, hcfg⟩
      · rw [if_pos hw]
        exact hw
    simp only [sendWebhook]
    rw [if_neg hurl']
    split
    · rename_i h; simp [h]
    · rename_i h; simp [h]
  · intro heq
    subst heq
    simp only [sendWebhook]
    repeat' split
    all_goals rfl
  · intro e heq
    subst heq
    simp only [sendWebhook]
    repeat' split
    all_goals rfl
  · intro hw hc
    simp [sendWebhook, hw, hc]

/-- Closed witness for C8: with a configured URL, a 201 response succeeds
with exactly one JSON POST, a 500 response and a timeout fail, and a
missing URL performs no POST. -/
theorem c8_webhook_delivery_contract_witness :
    (sendWebhook "http://vp2/hook" 30 "" (.resp 201)).ok = true
      ∧ (sendWebhook "http://vp2/hook" 30 "" (.resp 500)).ok = false
      ∧ (sendWebhook "http://vp2/hook" 30 "" .timeout).ok = false
      ∧ (sendWebhook "" 30 "" (.resp 200)).posts = [] := by
  refine ⟨?_, ?_, ?_, ?_⟩
  · exact ((c8_webhook_delivery_contract "http://vp2/hook" 30 "" (.resp 201)).2.2.1 201 rfl
      (by simp)).mpr (Or.inr (Or.inl rfl))
  · by_contra hne
    have h := ((c8_webhook_delivery_contract "http://vp2/hook" 30 "" (.resp 500)).2.2.1 500 rfl
      (by simp)).mp (by revert hne; cases hx : (sendWebhook "http://vp2/hook" 30 "" (.resp 500)).ok <;> simp)
    rcases h with h | h | h <;> exact absurd h (by decide)
  · exact (c8_webhook_delivery_contract "http://vp2/hook" 30 "" .timeout).2.2.2.1 rfl
  · exact ((c8_webhook_delivery_contract "" 30 "" (.resp 200)).2.2.2.2.2 rfl rfl).1

/-! ## C4 — ContentExtractor (`WebSearcher._crawl_single` in
`app/services/searcher.py`) -/

/-- A search candidate handed to the extractor:
`{"url", "title", "snippet", "query"}` built by `_collect_urls`. -/
structure SearchItem where
  title : String
  url : String
  snippet : String
  query : String
deriving DecidableEq, Repr

/-- The `SearchResult` schema returned by the extractor. -/
structure ExtractResult where
  title : String
  url : String
  content : String
  query : String
  contentType : String
deriving DecidableEq, Repr

/-- Outcome of the HTTP fetch + body-selection pipeline inside
`_crawl_single`: the request may time out, raise (HTTP error status from
`raise_for_status`, connection error, parse error), or succeed, in which
case `_extract_content` yields `none` (no body element) or the extracted
main-body text. -/
inductive CrawlFetch where
  | timeout
  | httpError : String → CrawlFetch
  | ok : Option String → CrawlFetch
deriving DecidableEq, Repr

/-- Embedding of `WebSearcher._crawl_single(item)`: a total function — every
fetch outcome produces a result, never an exception.  A successful
extraction of at least 100 characters returns a `full_crawled` result capped
at 3000 characters; every other outcome falls back to a `snippet` result
carrying the caller-supplied snippet verbatim. -/
def crawlSingle (item : SearchItem) (fetch : CrawlFetch) : ExtractResult :=
  match fetch with
  | .ok (some content) =>
    if content ≠ "" ∧ 100 ≤ content.length then
      ⟨item.title, item.url, pyTake content 3000, item.query, "full_crawled"⟩
    else
      ⟨item.title, item.url, item.snippet, item.query, "snippet"⟩
  | .ok none => ⟨item.title, item.url, item.snippet, item.query, "snippet"⟩
  | .timeout => ⟨item.title, item.url, item.snippet, item.query, "snippet"⟩
  | .httpError _ => ⟨item.title, item.url, item.snippet, item.query, "snippet"⟩

/-- C4: for every URL item the extractor is total (never throws) and always
returns either a `full_crawled` or a `snippet` result; on timeout and on
HTTP error it returns a `snippet` result whose content equals the
caller-supplied snippet; the same holds when the extracted main-body text is
shorter than 100 characters; and when extraction succeeds with at least 100
characters it returns a `full_crawled` result whose content is the text
truncated to the call site's fixed 3000-character cap. -/
theorem c4_content_extraction_fallback (item : SearchItem) (fetch : CrawlFetch) :
    ((crawlSingle item fetch).contentType = "full_crawled"
        ∨ (crawlSingle item fetch).contentType = "snippet")
    ∧ (fetch = .timeout →
        (crawlSingle item fetch).contentType = "snippet"
          ∧ (crawlSingle item fetch).content = item.snippet)
    ∧ (∀ e, fetch = .httpError e →
        (crawlSingle item fetch).contentType = "snippet"
          ∧ (crawlSingle item fetch).content = item.snippet)
    ∧ (∀ text, fetch = .ok (some text) → text.length < 100 →
        (crawlSingle item fetch).contentType = "snippet"
          ∧ (crawlSingle item fetch).content = item.snippet)
    ∧ (∀ text, fetch = .ok (some text) → text ≠ "" → 100 ≤ text.length →
        (crawlSingle item fetch).contentType = "full_crawled"
          ∧ (crawlSingle item fetch).content = pyTake text 3000
          ∧ (crawlSingle item fetch).content.length ≤ 3000) := by
  refine ⟨?_, ?_, ?_, ?_, ?_⟩
  · match fetch with
    | .ok (some content) =>
      simp only [crawlSingle]
      split
      · exact Or.inl rfl
      · exact Or.inr rfl
    | .ok none => exact Or.inr rfl
    | .timeout => exact Or.inr rfl
    | .httpError e => exact Or.inr rfl
  · intro h
    subst h
    exact ⟨rfl, rfl⟩
  · intro e h
    subst h
    exact ⟨rfl, rfl⟩
  · intro text h hshort
    subst h
    have hcond : ¬(text ≠ "" ∧ 100 ≤ text.length) := by
      rintro ⟨-, hle⟩
      exact absurd hle (not_le.mpr hshort)
    refine ⟨?_, ?_⟩ <;> simp [crawlSingle, hcond]
  · intro text h hne hlen
    subst h
    have hcond : text ≠ "" ∧ 100 ≤ text.length := ⟨hne, hlen⟩
    refine ⟨?_, ?_, ?_⟩ <;> simp [crawlSingle, hcond, pyTake_length_le]

/-- Closed witness for C4: a timed-out fetch falls back to the provided
snippet, and a 150-character body is returned as `full_crawled`. -/
theorem c4_content_extraction_fallback_witness :
    (crawlSingle ⟨"t", "http://a", "snip", "q"⟩ .timeout).content = "snip"
      ∧ (crawlSingle ⟨"t", "http://a", "snip", "q"⟩
          (.ok (some (String.mk (List.replicate 150 'x'))))).contentType = "full_crawled" := by
  constructor
  · exact ((c4_content_extraction_fallback ⟨"t", "http://a", "snip", "q"⟩ .timeout).2.1 rfl).2
  · exact ((c4_content_extraction_fallback ⟨"t", "http://a", "snip", "q"⟩
      (.ok (some (String.mk (List.replicate 150 'x'))))).2.2.2.2
        (String.mk (List.replicate 150 'x')) rfl (by decide)
        (by simp [String.length])).1

/-! ## C3 — DedupStore (store phase of `web_fetch_and_store` in
`app/tools/agent_tools.py`) -/

/-- A `{title, url}` source entry collected by the search step. -/
structure SourceRef where
  title : String
  url : String
deriving DecidableEq, Repr

/-- A web document persisted by `web_fetch_and_store` (page content plus
the metadata dict attached on store). -/
structure WebDoc where
  pageContent : String
  source : String
  title : String
  fetchedAt : String
  query : String
  kind : String
  contentHash : String
deriving DecidableEq, Repr

/-- The dedup key the code builds: `f"{u}::{content_hash}"` with
`content_hash = _hash_text(content[:20000])`. -/
def dedupKey (hash : String → String) (u content : String) : String :=
  u ++ "::" ++ hash (pyTake content 20000)

/-- Modelled from the spec: `Key = Hash(url ++ "::" ++ Hash(content[:capLen]))`
(the spec's form wraps the URL-and-inner-hash join in an outer hash). -/
def specDedupKey (hash : String → String) (u content : String) : String :=
  hash (u ++ "::" ++ hash (pyTake content 20000))

/-- Title recovery: first search source whose URL matches. -/
def lookupTitle (sources : List SourceRef) (u : String) : String :=
  match sources.find? (fun s => s.url == u) with
  | some s => s.title
  | none => ""

/-- The store loop of `web_fetch_and_store` over the successfully extracted
`(url, content)` items, threading the `seen_keys` set. -/
def webStoreLoop (hash : String → String) (sources : List SourceRef)
    (now query kind : String) (dedup : Bool) :
    List (String × String) → List String → List WebDoc × Nat
  | [], _ => ([], 0)
  | (u, content) :: rest, seen =>
    let contentHash := hash (pyTake content 20000)
    let key := u ++ "::" ++ contentHash
    if dedup = true ∧ key ∈ seen then
      let r := webStoreLoop hash sources now query kind dedup rest seen
      (r.1, r.2 + 1)
    else
      let r := webStoreLoop hash sources now query kind dedup rest (key :: seen)
      (⟨content, u, lookupTitle sources u, now, query, kind, contentHash⟩ :: r.1, r.2)

/-- Store phase of `web_fetch_and_store`: the documents added to the store
and the returned `(stored, skipped)` counts (`stored = len(docs)`). -/
def webFetchStorePhase (hash : String → String) (sources : List SourceRef)
    (now query kind : String) (dedup : Bool)
    (extractedItems : List (String × String)) : List WebDoc × Nat × Nat :=
  let r := webStoreLoop hash sources now query kind dedup extractedItems []
  (r.1, r.1.length, r.2)

theorem webStoreLoop_count (hash : String → String) (sources : List SourceRef)
    (now query kind : String) (dedup : Bool) (items : List (String × String)) :
    ∀ seen, (webStoreLoop hash sources now query kind dedup items seen).1.length
      + (webStoreLoop hash sources now query kind dedup items seen).2 = items.length := by
  induction items with
  | nil => intro seen; rfl
  | cons p rest ih =>
    intro seen
    obtain ⟨u, content⟩ := p
    simp only [webStoreLoop]
    split
    · simp only [List.length_cons, ← ih seen]
      omega
    · simp only [List.length_cons,
        ← ih ((u ++ "::" ++ hash (pyTake content 20000)) :: seen)]
      omega

theorem str_append_left_cancel {a b c : String} (h : a ++ b = a ++ c) : b = c := by
  have hd : a.data ++ b.data = a.data ++ c.data := by
    have hdata := congrArg String.data h
    simpa [String.data_append] using hdata
  have hbc := List.append_cancel_left hd
  exact String.ext hbc

/-- C3: the dedup-store batch contract of `web_fetch_and_store`.
(1) For every batch of `N` successfully extracted items, `stored` and
`skipped` sum to `N`.  (2) Ingesting the same `(url, content)` pair twice in
one batch yields `stored = 1`, `skipped = 1`.  (3) Two different content
bodies for the same URL (distinct content hashes) both store.  (4) The
dedup key the code builds — the URL joined by `"::"` with the hash of the
first 20,000 characters of the content — induces exactly the same collision
relation as the spec's `Hash(url ++ "::" ++ Hash(content[:capLen]))` form
whenever the hash is injective. -/
theorem c3_dedup_store_batch_contract (hash : String → String)
    (sources : List SourceRef) (now query kind : String) :
    (∀ (dedup : Bool) (items : List (String × String)),
        (webFetchStorePhase hash sources now query kind dedup items).2.1
          + (webFetchStorePhase hash sources now query kind dedup items).2.2
          = items.length)
    ∧ (∀ u content,
        (webFetchStorePhase hash sources now query kind true
            [(u, content), (u, content)]).2.1 = 1
          ∧ (webFetchStorePhase hash sources now query kind true
              [(u, content), (u, content)]).2.2 = 1)
    ∧ (∀ u c1 c2, hash (pyTake c1 20000) ≠ hash (pyTake c2 20000) →
        (webFetchStorePhase hash sources now query kind true [(u, c1), (u, c2)]).2.1 = 2
          ∧ (webFetchStorePhase hash sources now query kind true [(u, c1), (u, c2)]).2.2 = 0)
    ∧ (Function.Injective hash →
        ∀ u1 c1 u2 c2, dedupKey hash u1 c1 = dedupKey hash u2 c2 ↔
          specDedupKey hash u1 c1 = specDedupKey hash u2 c2) := by
  refine ⟨?_, ?_, ?_, ?_⟩
  · intro dedup items
    exact webStoreLoop_count hash sources now query kind dedup items []
  · intro u content
    constructor <;>
      simp [webFetchStorePhase, webStoreLoop]
  · intro u c1 c2 hne
    have hkey : u ++ "::" ++ hash (pyTake c2 20000) ≠ u ++ "::" ++ hash (pyTake c1 20000) := by
      intro heq
      exact hne (str_append_left_cancel
        (a := u ++ "::") (b := hash (pyTake c2 20000)) heq).symm
    constructor <;>
      simp [webFetchStorePhase, webStoreLoop, hkey]
  · intro hinj u1 c1 u2 c2
    constructor
    · intro h
      exact congrArg hash h
    · intro h
      exact hinj h

/-- Closed witness for C3 with the identity hash (injective): a duplicated
pair stores once and skips once; two distinct bodies for one URL both
store; counts sum to the batch length. -/
theorem c3_dedup_store_batch_contract_witness :
    ((webFetchStorePhase id [] "now" "q" "web" true
        [("http://a", "body"), ("http://a", "body")]).2.1 = 1
      ∧ (webFetchStorePhase id [] "now" "q" "web" true
          [("http://a", "body"), ("http://a", "body")]).2.2 = 1)
    ∧ ((webFetchStorePhase id [] "now" "q" "web" true
          [("http://a", "x"), ("http://a", "y")]).2.1 = 2
        ∧ (webFetchStorePhase id [] "now" "q" "web" true
            [("http://a", "x"), ("http://a", "y")]).2.2 = 0)
    ∧ (dedupKey id "http://a" "x" = dedupKey id "http://a" "x" ↔
        specDedupKey id "http://a" "x" = specDedupKey id "http://a" "x") := by
  refine ⟨?_, ?_, ?_⟩
  · exact (c3_dedup_store_batch_contract id [] "now" "q" "web").2.1 "http://a" "body"
  · exact (c3_dedup_store_batch_contract id [] "now" "q" "web").2.2.1 "http://a" "x" "y"
      (by decide)
  · exact (c3_dedup_store_batch_contract id [] "now" "q" "web").2.2.2
      (fun _ _ h => h) "http://a" "x" "http://a" "x"

/-! ## C1 — CaseOrchestrator (`_trigger_analysis_background` in
`app/api/routes.py`) -/

/-- One entry of `_analysis_results`, reduced to the fields the
orchestrator itself fills (the agent payload blobs are opaque). -/
structure AnalysisRecord where
  analysisId : String
  caseId : String
  status : String
  error : Option String
  analyzedAt : String
deriving DecidableEq, Repr

/-- The module-level orchestrator state: the `_analyzed_cases` and
`_analyzing_cases` sets and the `_analysis_results` registry. -/
structure BgState where
  analyzed : List String
  analyzing : List String
  results : List (String × AnalysisRecord)
deriving DecidableEq, Repr

/-- Python `set.add`. -/
def setAdd (l : List String) (x : String) : List String :=
  if x ∈ l then l else x :: l

/-- Python `set.discard`. -/
def setDiscard (l : List String) (x : String) : List String :=
  l.filter (fun y => y != x)

/-- Outcome of `agent.run(request)`: a returned result carrying its
`status` and `error` fields, or a raised exception. -/
inductive AgentOutcome where
  | ok : String → Option String → AgentOutcome
  | exc : String → AgentOutcome
deriving DecidableEq, Repr

/-- Observable effects of one background event. -/
structure BgEffects where
  runs : Nat                      -- number of analysis-workflow executions
  webhookAttempts : List String   -- payload `type`s handed to `_send_webhook`
  errorRecordStored : Bool
deriving DecidableEq, Repr

/-- Embedding of `_trigger_analysis_background(case_id, ...)` acting on the
orchestrator state for one background event.  `outcome` is what the opaque
agent does for this event; `http` is the HTTP outcome of the (at most one)
webhook delivery, whose boolean result the code discards. -/
def triggerAnalysisBackground (st : BgState) (caseId analysisId now : String)
    (outcome : AgentOutcome) (configUrl : String) (wt : ℚ) (http : HttpOutcome) :
    BgState × BgEffects :=
  if caseId ∈ st.analyzed then (st, ⟨0, [], false⟩)
  else if caseId ∈ st.analyzing then (st, ⟨0, [], false⟩)
  else
    let analyzing1 := setAdd st.analyzing caseId
    match outcome with
    | .ok status errF =>
      let record : AnalysisRecord := ⟨analysisId, caseId, status, errF, now⟩
      let results1 := (analysisId, record) :: st.results
      if status = "success" then
        let _delivered := sendWebhook configUrl wt "" http
        ({ analyzed := setAdd st.analyzed caseId,
           analyzing := setDiscard analyzing1 caseId,
           results := results1 },
         ⟨1, ["analysis_complete"], false⟩)
      else
        ({ st with analyzing := setDiscard analyzing1 caseId, results := results1 },
         ⟨1, [], false⟩)
    | .exc msg =>
      let record : AnalysisRecord := ⟨analysisId, caseId, "error", some msg, now⟩
      let results1 := (analysisId, record) :: st.results
      let _delivered := sendWebhook configUrl wt "" http
      ({ st with analyzing := setDiscard analyzing1 caseId, results := results1 },
       ⟨1, ["analysis_error"], true⟩)

theorem mem_setAdd_self (l : List String) (x : String) : x ∈ setAdd l x := by
  unfold setAdd
  split
  · assumption
  · exact List.mem_cons_self x l

theorem not_mem_setDiscard_self (l : List String) (x : String) :
    x ∉ setDiscard l x := by
  intro h
  have := List.of_mem_filter h
  simp at this

/-- Counterexample to C1 as stated: the agent's `run` has a catch-all and
never raises — an analysis failure surfaces as a returned result with
`status = "error"`.  On that failure path the orchestrator runs the
workflow, stores the record (carrying the error), and does not mark the
case analyzed, but hands NO error payload to the webhook sender: the
claim's "an error payload delivery is attempted" is false.  Concretely: a
fresh case whose analysis completes with `status = "error"`. -/
theorem c1_counterexample_no_error_delivery_on_status_error :
    (triggerAnalysisBackground ⟨[], [], []⟩ "case-1" "a1" "t0"
        (.ok "error" (some "agent failed")) "http://vp2" 30 (.resp 200)).2.runs = 1
    ∧ ("a1", (⟨"a1", "case-1", "error", some "agent failed", "t0"⟩ : AnalysisRecord)) ∈
        (triggerAnalysisBackground ⟨[], [], []⟩ "case-1" "a1" "t0"
          (.ok "error" (some "agent failed")) "http://vp2" 30 (.resp 200)).1.results
    ∧ "case-1" ∉ (triggerAnalysisBackground ⟨[], [], []⟩ "case-1" "a1" "t0"
        (.ok "error" (some "agent failed")) "http://vp2" 30 (.resp 200)).1.analyzed
    ∧ (triggerAnalysisBackground ⟨[], [], []⟩ "case-1" "a1" "t0"
        (.ok "error" (some "agent failed")) "http://vp2" 30 (.resp 200)).2.webhookAttempts
      = [] := by
  decide

/-- C1 (amended): the case-processing idempotency state machine.  If the
case is in the analyzed set or the analyzing set, the event is a no-op
(state unchanged, no workflow run, no webhook, no record).  Otherwise the
workflow runs exactly once for the event; on completion with
`status = "success"` the case is in the analyzed set and a result payload
was handed to the webhook sender — and the whole outcome is independent of
the webhook delivery result; on a raised exception an error record is
stored, an error payload delivery is attempted, and the case is in neither
the analyzed nor the analyzing set afterwards; on completion with a
non-`"success"` status the record (carrying the agent's error field) is
stored and the case is likewise in neither set afterwards, but no payload
delivery is attempted at all. -/
theorem c1_amended_case_processing_idempotency (st : BgState)
    (caseId analysisId now : String) (outcome : AgentOutcome)
    (configUrl : String) (wt : ℚ) (http : HttpOutcome) :
    ((caseId ∈ st.analyzed ∨ caseId ∈ st.analyzing) →
        triggerAnalysisBackground st caseId analysisId now outcome configUrl wt http
          = (st, ⟨0, [], false⟩))
    ∧ (caseId ∉ st.analyzed → caseId ∉ st.analyzing →
        (triggerAnalysisBackground st caseId analysisId now outcome configUrl wt http).2.runs
          = 1)
    ∧ (caseId ∉ st.analyzed → caseId ∉ st.analyzing →
        ∀ errF, outcome = .ok "success" errF →
          caseId ∈ (triggerAnalysisBackground st caseId analysisId now outcome
              configUrl wt http).1.analyzed
            ∧ (triggerAnalysisBackground st caseId analysisId now outcome
                configUrl wt http).2.webhookAttempts = ["analysis_complete"])
    ∧ (∀ http2,
        triggerAnalysisBackground st caseId analysisId now outcome configUrl wt http
          = triggerAnalysisBackground st caseId analysisId now outcome configUrl wt http2)
    ∧ (caseId ∉ st.analyzed → caseId ∉ st.analyzing →
        ∀ msg, outcome = .exc msg →
          (triggerAnalysisBackground st caseId analysisId now outcome
              configUrl wt http).2.errorRecordStored = true
            ∧ (triggerAnalysisBackground st caseId analysisId now outcome
                configUrl wt http).2.webhookAttempts = ["analysis_error"]
            ∧ caseId ∉ (triggerAnalysisBackground st caseId analysisId now outcome
                configUrl wt http).1.analyzed
            ∧ caseId ∉ (triggerAnalysisBackground st caseId analysisId now outcome
                configUrl wt http).1.analyzing)
    ∧ (caseId ∉ st.analyzed → caseId ∉ st.analyzing →
        ∀ status errF, outcome = .ok status errF → status ≠ "success" →
          ((analysisId, (⟨analysisId, caseId, status, errF, now⟩ : AnalysisRecord)) ∈
              (triggerAnalysisBackground st caseId analysisId now outcome
                configUrl wt http).1.results)
            ∧ (triggerAnalysisBackground st caseId analysisId now outcome
                configUrl wt http).2.webhookAttempts = []
            ∧ caseId ∉ (triggerAnalysisBackground st caseId analysisId now outcome
                configUrl wt http).1.analyzed
            ∧ caseId ∉ (triggerAnalysisBackground st caseId analysisId now outcome
                configUrl wt http).1.analyzing) := by
  refine ⟨?_, ?_, ?_, fun _ => rfl, ?_, ?_⟩
  · intro h
    by_cases h1 : caseId ∈ st.analyzed
    · simp only [triggerAnalysisBackground, if_pos h1]
    · have h2 : caseId ∈ st.analyzing := h.resolve_left h1
      simp only [triggerAnalysisBackground, if_neg h1, if_pos h2]
  · intro h1 h2
    simp only [triggerAnalysisBackground, if_neg h1, if_neg h2]
    match outcome with
    | .ok status errF =>
      by_cases hs : status = "success" <;> simp [hs]
    | .exc msg => rfl
  · intro h1 h2 errF hout
    subst hout
    refine ⟨?_, ?_⟩
    · simp only [triggerAnalysisBackground, if_neg h1, if_neg h2, if_pos rfl]
      exact mem_setAdd_self st.analyzed caseId
    · simp [triggerAnalysisBackground, h1, h2]
  · intro h1 h2 msg hout
    subst hout
    refine ⟨?_, ?_, ?_, ?_⟩
    · simp [triggerAnalysisBackground, h1, h2]
    · simp [triggerAnalysisBackground, h1, h2]
    · simp only [triggerAnalysisBackground, if_neg h1, if_neg h2]
      exact h1
    · simp only [triggerAnalysisBackground, if_neg h1, if_neg h2]
      exact not_mem_setDiscard_self _ caseId
  · intro h1 h2 status errF hout hns
    subst hout
    refine ⟨?_, ?_, ?_, ?_⟩
    · simp only [triggerAnalysisBackground, if_neg h1, if_neg h2, if_neg hns]
      exact List.mem_cons_self _ _
    · simp [triggerAnalysisBackground, h1, h2, hns]
    · simp only [triggerAnalysisBackground, if_neg h1, if_neg h2, if_neg hns]
      exact h1
    · simp only [triggerAnalysisBackground, if_neg h1, if_neg h2, if_neg hns]
      exact not_mem_setDiscard_self _ caseId

/-- Closed witness for C1 (amended) at concrete inputs: an event on a
fresh case with a successful analysis marks the case analyzed (whatever
the webhook did); a second event on the now-analyzed case is a no-op; a
raising event on a fresh case stores an error record and does not mark the
case analyzed; and an event completing with a non-"success" status
attempts no payload delivery. -/
theorem c1_amended_case_processing_idempotency_witness :
    ("case-1" ∈
        (triggerAnalysisBackground ⟨[], [], []⟩ "case-1" "a1" "t0"
          (.ok "success" none) "http://vp2" 30 .timeout).1.analyzed
      ∧ triggerAnalysisBackground ⟨["case-1"], [], []⟩ "case-1" "a2" "t1"
          (.ok "success" none) "http://vp2" 30 (.resp 200)
          = (⟨["case-1"], [], []⟩, ⟨0, [], false⟩)
      ∧ (triggerAnalysisBackground ⟨[], [], []⟩ "case-1" "a3" "t2"
          (.exc "boom") "http://vp2" 30 (.resp 200)).2.errorRecordStored = true
      ∧ "case-1" ∉
          (triggerAnalysisBackground ⟨[], [], []⟩ "case-1" "a3" "t2"
            (.exc "boom") "http://vp2" 30 (.resp 200)).1.analyzed
      ∧ (triggerAnalysisBackground ⟨[], [], []⟩ "case-1" "a4" "t3"
          (.ok "error" (some "llm timeout")) "http://vp2" 30 (.resp 200)).2.webhookAttempts
        = []) := by
  refine ⟨?_, ?_, ?_, ?_, ?_⟩
  · exact ((c1_amended_case_processing_idempotency ⟨[], [], []⟩ "case-1" "a1" "t0"
      (.ok "success" none) "http://vp2" 30 .timeout).2.2.1
        (by simp) (by simp) none rfl).1
  · exact (c1_amended_case_processing_idempotency ⟨["case-1"], [], []⟩ "case-1" "a2" "t1"
      (.ok "success" none) "http://vp2" 30 (.resp 200)).1
        (Or.inl (List.mem_singleton_self _))
  · exact ((c1_amended_case_processing_idempotency ⟨[], [], []⟩ "case-1" "a3" "t2"
      (.exc "boom") "http://vp2" 30 (.resp 200)).2.2.2.2.1
        (by simp) (by simp) "boom" rfl).1
  · exact ((c1_amended_case_processing_idempotency ⟨[], [], []⟩ "case-1" "a3" "t2"
      (.exc "boom") "http://vp2" 30 (.resp 200)).2.2.2.2.1
        (by simp) (by simp) "boom" rfl).2.2.1
  · exact ((c1_amended_case_processing_idempotency ⟨[], [], []⟩ "case-1" "a4" "t3"
      (.ok "error" (some "llm timeout")) "http://vp2" 30 (.resp 200)).2.2.2.2.2
        (by simp) (by simp) "error" (some "llm timeout") rfl (by decide)).2.1

/-! ## C6 — PaginationCrawler (`crawl_site_with_pagination` in
`app/tools/agent_tools.py`) -/

/-- A keyword-matching article collected from a listing page. -/
structure CrawlArticle where
  title : String
  url : String
  matchedKeywords : List String
  page : Nat
deriving DecidableEq, Repr

/-- One repeating row/item element of a listing page, at the abstraction
boundary of the DOM: the text of its title element (if any title element
was found) and the `href` of its link element (if any link element was
found; the attribute may be the empty string). -/
structure PageItem where
  titleText : Option String
  linkHref : Option String
deriving DecidableEq, Repr

/-- Outcome of fetching and parsing one listing page: a raised exception,
or a parsed page with its item elements and the `href` of a "next" link
when one is discoverable. -/
inductive PageOutcome where
  | err : String → PageOutcome
  | ok : List PageItem → Option String → PageOutcome
deriving DecidableEq, Repr

/-- The pagination strategies of `crawl_site_with_pagination`. -/
inductive PaginationType where
  | auto | urlParam | path | nextButton
deriving DecidableEq, Repr

/-- The crawler's environment: the network (the outcome of the n-th listing
page fetch), URL resolution, and page-URL building. -/
structure CrawlEnv where
  fetch : Nat → PageOutcome
  urljoin : String → String → String
  buildUrlParamPage : String → Nat → String
  buildPathPage : String → Nat → String
  hasPageParam : Bool
  pathEndsNumeric : Bool

/-- Auto-detection of the pagination strategy from the seed URL. -/
def resolvePaginationType (env : CrawlEnv) : PaginationType → PaginationType
  | .auto =>
    if env.hasPageParam then .urlParam
    else if env.pathEndsNumeric then .path
    else .nextButton
  | t => t

/-- Per-item processing inside the page loop: extract a title, keep the
item only if the title contains at least one keyword, extract and resolve
its link. -/
def processItem (keywords : List String) (urljoin : String → String → String)
    (currentUrl : String) (pageNum : Nat) (it : PageItem) : Option CrawlArticle :=
  match it.titleText with
  | none => none
  | some title =>
    let matched := keywords.filter (fun kw => strContains title kw)
    if matched.isEmpty then none
    else
      match it.linkHref with
      | none => none
      | some href =>
        if href = "" then none
        else some ⟨title, urljoin currentUrl href, matched, pageNum⟩

/-- The crawler's loop state. -/
structure CrawlState where
  allArticles : List CrawlArticle
  currentUrl : String
  pagesCrawled : Nat
  fetches : Nat
deriving Repr

/-- The "next page" decision after a successful page: for the
`next_button` strategy a missing or empty "next" link stops the crawl,
otherwise the current URL advances; the other strategies always
continue. -/
def nextState (env : CrawlEnv) (ptype : PaginationType) (cur : String)
    (nextHref : Option String) (st1 : CrawlState) : Option CrawlState :=
  match ptype with
  | .nextButton =>
    match nextHref with
    | none => none
    | some h =>
      if h = "" then none
      else some { st1 with currentUrl := env.urljoin cur h }
  | _ => some st1

theorem nextState_some_fields {env : CrawlEnv} {ptype : PaginationType}
    {cur : String} {nextHref : Option String} {st1 st2 : CrawlState}
    (h : nextState env ptype cur nextHref st1 = some st2) :
    st2.allArticles = st1.allArticles ∧ st2.pagesCrawled = st1.pagesCrawled
      ∧ st2.fetches = st1.fetches := by
  cases ptype with
  | nextButton =>
    cases nextHref with
    | none => simp [nextState] at h
    | some s =>
      by_cases hs : s = ""
      · simp [nextState, hs] at h
      · simp [nextState, hs] at h
        subst h
        exact ⟨rfl, rfl, rfl⟩
  | auto =>
    simp [nextState] at h
    subst h
    exact ⟨rfl, rfl, rfl⟩
  | urlParam =>
    simp [nextState] at h
    subst h
    exact ⟨rfl, rfl, rfl⟩
  | path =>
    simp [nextState] at h
    subst h
    exact ⟨rfl, rfl, rfl⟩

/-- The page loop of `crawl_site_with_pagination`, one recursive step per
`page_num` (at most `max_pages` iterations; `remaining` is the fuel left in
`range(1, max_pages + 1)`).  Each iteration performs exactly one listing
fetch (counted in `fetches`); any per-page exception, a truncation to
`max_articles`, a missing/empty "next" link for the `next_button` strategy,
and an empty page all stop the loop and return the state collected so
far. -/
def crawlLoop (env : CrawlEnv) (siteUrl : String) (keywords : List String)
    (ptype : PaginationType) (maxArticles : Nat) :
    Nat → Nat → CrawlState → CrawlState
  | 0, _, st => st
  | remaining + 1, pageNum, st =>
    let cur := match ptype with
      | .urlParam => env.buildUrlParamPage siteUrl pageNum
      | .path => env.buildPathPage siteUrl pageNum
      | _ => st.currentUrl
    match env.fetch pageNum with
    | .err _ => { st with currentUrl := cur, fetches := st.fetches + 1 }
    | .ok items nextHref =>
      let pageArticles := items.filterMap (processItem keywords env.urljoin cur pageNum)
      let all := st.allArticles ++ pageArticles
      let st1 : CrawlState := ⟨all, cur, st.pagesCrawled + 1, st.fetches + 1⟩
      if maxArticles ≤ all.length then
        { st1 with allArticles := all.take maxArticles }
      else
        match nextState env ptype cur nextHref st1 with
        | none => st1
        | some st2 =>
          if pageArticles.isEmpty then st2
          else crawlLoop env siteUrl keywords ptype maxArticles remaining (pageNum + 1) st2

/-- The crawl output dict. -/
structure CrawlOut where
  siteUrl : String
  pagesCrawled : Nat
  foundCount : Nat
  articles : List CrawlArticle
  fetches : Nat
deriving Repr

/-- Embedding of `crawl_site_with_pagination(site_url, keywords,
max_articles, max_pages, pagination_type, ...)`. -/
def crawl_site_with_pagination (env : CrawlEnv) (siteUrl : String)
    (keywords : List String) (maxArticles maxPages : Nat)
    (ptype0 : PaginationType) : CrawlOut :=
  let ptype := resolvePaginationType env ptype0
  let st := crawlLoop env siteUrl keywords ptype maxArticles maxPages 1 ⟨[], siteUrl, 0, 0⟩
  ⟨siteUrl, st.pagesCrawled, st.allArticles.length, st.allArticles, st.fetches⟩

theorem crawlLoop_fetches_le (env : CrawlEnv) (siteUrl : String)
    (keywords : List String) (ptype : PaginationType) (maxArticles : Nat) :
    ∀ remaining pageNum st,
      (crawlLoop env siteUrl keywords ptype maxArticles remaining pageNum st).fetches
        ≤ st.fetches + remaining := by
  intro remaining
  induction remaining with
  | zero => intro pageNum st; simp [crawlLoop]
  | succ r ih =>
    intro pageNum st
    cases hf : env.fetch pageNum with
    | err e =>
      simp only [crawlLoop, hf]
      show st.fetches + 1 ≤ st.fetches + (r + 1)
      omega
    | ok items nextHref =>
      simp only [crawlLoop, hf]
      split
      · show st.fetches + 1 ≤ st.fetches + (r + 1)
        omega
      · split
        · show st.fetches + 1 ≤ st.fetches + (r + 1)
          omega
        · rename_i st2 heq
          have hf2 := (nextState_some_fields heq).2.2
          split
          · rw [hf2]
            show st.fetches + 1 ≤ st.fetches + (r + 1)
            omega
          · refine le_trans (ih (pageNum + 1) st2) ?_
            rw [hf2]
            show st.fetches + 1 + r ≤ st.fetches + (r + 1)
            omega

theorem crawlLoop_articles_le (env : CrawlEnv) (siteUrl : String)
    (keywords : List String) (ptype : PaginationType) (maxArticles : Nat) :
    ∀ remaining pageNum st, st.allArticles.length ≤ maxArticles →
      (crawlLoop env siteUrl keywords ptype maxArticles remaining pageNum st).allArticles.length
        ≤ maxArticles := by
  intro remaining
  induction remaining with
  | zero => intro pageNum st h; simpa [crawlLoop] using h
  | succ r ih =>
    intro pageNum st h
    cases hf : env.fetch pageNum with
    | err e =>
      simp only [crawlLoop, hf]
      exact h
    | ok items nextHref =>
      simp only [crawlLoop, hf]
      split
      · exact List.length_take_le _ _
      · rename_i hlt
        have hle := le_of_not_le hlt
        split
        · exact hle
        · rename_i st2 heq
          have ha2 := (nextState_some_fields heq).1
          split
          · rw [ha2]
            exact hle
          · exact ih (pageNum + 1) st2 (by rw [ha2]; exact hle)

theorem crawlLoop_err_keeps_acc (env : CrawlEnv) (siteUrl : String)
    (keywords : List String) (ptype : PaginationType) (maxArticles : Nat)
    (remaining pageNum : Nat) (st : CrawlState) (e : String)
    (herr : env.fetch pageNum = .err e) :
    (crawlLoop env siteUrl keywords ptype maxArticles (remaining + 1) pageNum st).allArticles
      = st.allArticles
    ∧ (crawlLoop env siteUrl keywords ptype maxArticles (remaining + 1) pageNum st).pagesCrawled
      = st.pagesCrawled := by
  simp [crawlLoop, herr]

/-- C6: resource and size bounds of the pagination crawler.  For every
environment, keyword set, `maxArticles = A` and `maxPages = P`: the crawler
performs at most `P` listing-page fetches; the returned articles list
satisfies `len(articles) ≤ A` (and `found_count = len(articles)`) on every
return path; and a per-page exception stops the loop at that page,
returning exactly the partial results collected so far. -/
theorem c6_pagination_crawler_bounds (env : CrawlEnv) (siteUrl : String)
    (keywords : List String) (maxArticles maxPages : Nat)
    (ptype0 : PaginationType) :
    ((crawl_site_with_pagination env siteUrl keywords maxArticles maxPages ptype0).fetches
        ≤ maxPages)
    ∧ ((crawl_site_with_pagination env siteUrl keywords maxArticles maxPages ptype0).articles.length
        ≤ maxArticles)
    ∧ ((crawl_site_with_pagination env siteUrl keywords maxArticles maxPages ptype0).foundCount
        = (crawl_site_with_pagination env siteUrl keywords maxArticles
            maxPages ptype0).articles.length)
    ∧ (∀ remaining pageNum st e, env.fetch pageNum = .err e →
        (crawlLoop env siteUrl keywords (resolvePaginationType env ptype0) maxArticles
            (remaining + 1) pageNum st).allArticles = st.allArticles)
    ∧ (∀ e, env.fetch 1 = .err e → 1 ≤ maxPages →
        (crawl_site_with_pagination env siteUrl keywords maxArticles maxPages
            ptype0).articles = []
          ∧ (crawl_site_with_pagination env siteUrl keywords maxArticles maxPages
              ptype0).pagesCrawled = 0) := by
  refine ⟨?_, ?_, rfl, ?_, ?_⟩
  · simpa using crawlLoop_fetches_le env siteUrl keywords
      (resolvePaginationType env ptype0) maxArticles maxPages 1 ⟨[], siteUrl, 0, 0⟩
  · exact crawlLoop_articles_le env siteUrl keywords
      (resolvePaginationType env ptype0) maxArticles maxPages 1 ⟨[], siteUrl, 0, 0⟩
      (by simp)
  · intro remaining pageNum st e herr
    exact (crawlLoop_err_keeps_acc env siteUrl keywords
      (resolvePaginationType env ptype0) maxArticles remaining pageNum st e herr).1
  · intro e herr hP
    obtain ⟨P', hP'⟩ : ∃ P', maxPages = P' + 1 := ⟨maxPages - 1, by omega⟩
    subst hP'
    have h := crawlLoop_err_keeps_acc env siteUrl keywords
      (resolvePaginationType env ptype0) maxArticles P' 1 ⟨[], siteUrl, 0, 0⟩ e herr
    exact ⟨h.1, h.2⟩

/-- Closed witness for C6: a concrete site whose page 1 holds one matching
item and whose page 2 raises — at most 2 fetches for `maxPages = 2`, at
most 5 articles, and an erroring first page yields no articles. -/
theorem c6_pagination_crawler_bounds_witness :
    (((crawl_site_with_pagination
          ⟨fun n => if n = 1 then .ok [⟨some "보이스피싱 경고", some "/a1"⟩] none
                    else .err "conn reset",
            fun a b => a ++ b, fun u _ => u, fun u _ => u, false, false⟩
          "http://site/notice" ["보이스피싱"] 5 2 .auto).fetches ≤ 2)
      ∧ ((crawl_site_with_pagination
            ⟨fun _ => .err "down", fun a b => a ++ b, fun u _ => u, fun u _ => u,
              false, false⟩
            "http://site/notice" ["보이스피싱"] 5 2 .auto).articles = [])) := by
  constructor
  · exact (c6_pagination_crawler_bounds
      ⟨fun n => if n = 1 then .ok [⟨some "보이스피싱 경고", some "/a1"⟩] none
                else .err "conn reset",
        fun a b => a ++ b, fun u _ => u, fun u _ => u, false, false⟩
      "http://site/notice" ["보이스피싱"] 5 2 .auto).1
  · exact ((c6_pagination_crawler_bounds
      ⟨fun _ => .err "down", fun a b => a ++ b, fun u _ => u, fun u _ => u,
        false, false⟩
      "http://site/notice" ["보이스피싱"] 5 2 .auto).2.2.2.2 "down" rfl
        (by omega)).1

/-! ## C7 — SnippetLifecycle (`mark_snippets_processed` in
`app/tools/agent_tools.py`) -/

/-- A document of the Chroma collection: id, page content, metadata. -/
structure ColDoc where
  id : String
  content : String
  meta : Meta
deriving DecidableEq, Repr

/-- The merge-update applied to one metadata dict by
`mark_snippets_processed`: copy the old dict, then assign `kind`,
`processed`, `used_in_report_id` and `processed_at`. -/
def mergeMeta (kind reportId now : String) (m : Meta) : Meta :=
  setKey (setKey (setKey (setKey m "kind" (.s kind)) "processed" (.b true))
    "used_in_report_id" (.s reportId)) "processed_at" (.s now)

/-- `col.update(ids, metadatas)` pairing: a document keeps its content and
receives the new metadata paired with its id, if any. -/
def markUpdate (pairs : List (String × Meta)) (d : ColDoc) : ColDoc :=
  match pairs.find? (fun p => p.1 == d.id) with
  | some p => { d with meta := p.2 }
  | none => d

/-- Embedding of `mark_snippets_processed(doc_ids, report_id, kind)` acting
on the collection.  `col.get(ids=...)` is modelled as returning the
metadata of the requested ids in request order — the collaborator contract
the code's `col.update(ids, new_metas)` pairing relies on. -/
def mark_snippets_processed (col : List ColDoc) (docIds : List String)
    (reportId kind now : String) : List ColDoc × Nat :=
  let oldMetas := docIds.filterMap (fun i =>
    (col.find? (fun d => d.id == i)).map (fun d => d.meta))
  let newMetas := oldMetas.map (mergeMeta kind reportId now)
  let pairs := docIds.zip newMetas
  (col.map (markUpdate pairs), docIds.length)

theorem zip_self_map {α β : Type _} (l : List α) (h : α → β) :
    l.zip (l.map h) = l.map (fun a => (a, h a)) := by
  induction l with
  | nil => rfl
  | cons a t ih => simp [ih]

theorem find?_pair_self {β : Type _} (h : String → β) {l : List String} {a : String}
    (ha : a ∈ l) :
    (l.map (fun i => (i, h i))).find? (fun p => p.1 == a) = some (a, h a) := by
  induction l with
  | nil => cases ha
  | cons b t ih =>
    by_cases hb : b = a
    · subst hb
      rw [List.map_cons]
      simp [List.find?]
    · rcases List.mem_cons.mp ha with h1 | h1
      · exact absurd h1.symm hb
      · rw [List.map_cons]
        simp only [List.find?]
        simp only [show ((b, h b).1 == a) = false by simp [hb]]
        exact ih h1

theorem find?_id_eq (col : List ColDoc)
    (hno : (col.map (fun d => d.id)).Nodup) {d : ColDoc} (hd : d ∈ col) :
    col.find? (fun x => x.id == d.id) = some d := by
  induction col with
  | nil => cases hd
  | cons c t ih =>
    have hno' : c.id ∉ t.map (fun d => d.id) ∧ (t.map (fun d => d.id)).Nodup := by
      rw [List.map_cons] at hno
      exact List.nodup_cons.mp hno
    rcases List.mem_cons.mp hd with h | h
    · subst h
      simp [List.find?]
    · have hne : (c.id == d.id) = false := by
        rw [beq_eq_false_iff_ne]
        intro hcd
        exact hno'.1 (hcd ▸ List.mem_map_of_mem (fun d => d.id) h)
      simp only [List.find?]
      simp only [hne]
      exact ih hno'.2 h

theorem filterMap_eq_map_of_some {α β : Type _} {f : α → Option β} {g : α → β} :
    ∀ l : List α, (∀ a ∈ l, f a = some (g a)) → l.filterMap f = l.map g := by
  intro l
  induction l with
  | nil => intro _; rfl
  | cons a t ih =>
    intro h
    simp only [List.filterMap_cons, h a (List.mem_cons_self a t), List.map_cons]
    rw [ih (fun x hx => h x (List.mem_cons_of_mem a hx))]

theorem mergeMeta_getKey (kind reportId now : String) (m : Meta) :
    getKey (mergeMeta kind reportId now m) "processed_at" = some (.s now)
    ∧ getKey (mergeMeta kind reportId now m) "used_in_report_id" = some (.s reportId)
    ∧ getKey (mergeMeta kind reportId now m) "processed" = some (.b true)
    ∧ getKey (mergeMeta kind reportId now m) "kind" = some (.s kind)
    ∧ ∀ k, k ≠ "kind" → k ≠ "processed" → k ≠ "used_in_report_id" →
        k ≠ "processed_at" → getKey (mergeMeta kind reportId now m) k = getKey m k := by
  unfold mergeMeta
  refine ⟨getKey_setKey_same _ _ _, ?_, ?_, ?_, ?_⟩
  · rw [getKey_setKey_other _ _ _ _ (by decide)]
    exact getKey_setKey_same _ _ _
  · rw [getKey_setKey_other _ _ _ _ (by decide), getKey_setKey_other _ _ _ _ (by decide)]
    exact getKey_setKey_same _ _ _
  · rw [getKey_setKey_other _ _ _ _ (by decide), getKey_setKey_other _ _ _ _ (by decide),
      getKey_setKey_other _ _ _ _ (by decide)]
    exact getKey_setKey_same _ _ _
  · intro k h1 h2 h3 h4
    rw [getKey_setKey_other _ _ _ _ h4, getKey_setKey_other _ _ _ _ h3,
      getKey_setKey_other _ _ _ _ h2, getKey_setKey_other _ _ _ _ h1]

theorem mark_pairs_find (col : List ColDoc) (docIds : List String)
    (reportId kind now : String)
    (hall : ∀ i ∈ docIds, ∃ dd ∈ col, dd.id = i)
    (hno : (col.map (fun d => d.id)).Nodup)
    {d : ColDoc} (hd : d ∈ col) (hid : d.id ∈ docIds) :
    (docIds.zip ((docIds.filterMap (fun i =>
        (col.find? (fun x => x.id == i)).map (fun x => x.meta))).map
          (mergeMeta kind reportId now))).find? (fun p => p.1 == d.id)
      = some (d.id, mergeMeta kind reportId now d.meta) := by
  have hfm : docIds.filterMap (fun i =>
      (col.find? (fun x => x.id == i)).map (fun x => x.meta))
      = docIds.map (fun i =>
          ((col.find? (fun x => x.id == i)).map (fun x => x.meta)).getD []) := by
    apply filterMap_eq_map_of_some
    intro i hi
    obtain ⟨dd, hdd, hddid⟩ := hall i hi
    subst hddid
    rw [find?_id_eq col hno hdd]
    rfl
  rw [hfm, List.map_map, zip_self_map, find?_pair_self _ hid]
  have hdm : ((col.find? (fun x => x.id == d.id)).map (fun x => x.meta)).getD []
      = d.meta := by
    rw [find?_id_eq col hno hd]
    rfl
  simp only [Function.comp_apply]
  rw [hdm]

/-- Counterexample to C7 as stated: `mark_snippets_processed` also writes
the `kind` metadata field (to its `kind` argument, default
`"voicephishing_snippet_v1"`), so a pre-existing `kind` value is NOT
preserved — here a document stored with `kind = "old_kind"` comes back
with `kind = "voicephishing_snippet_v1"` after being marked processed. -/
theorem c7_counterexample_kind_overwritten :
    ((mark_snippets_processed
        [⟨"d1", "c", [("kind", MetaVal.s "old_kind"), ("title", MetaVal.s "t")]⟩]
        ["d1"] "r1" "voicephishing_snippet_v1" "t1").1.map
          (fun d => getKey d.meta "kind")
        = [some (MetaVal.s "voicephishing_snippet_v1")])
    ∧ some (MetaVal.s "voicephishing_snippet_v1") ≠ some (MetaVal.s "old_kind") := by
  constructor
  · rfl
  · decide

/-- C7 (amended): `markProcessed` is a merging frame-preserving update up
to the four fields it assigns.  For every collection (with unique ids),
document-id list (all present) and report id: each targeted document's
metadata afterwards has `processed = true`, `used_in_report_id` = the
report id, `processed_at` = now, and `kind` = the kind argument, while
every metadata field other than these four keeps its previous value — the
update is a merge of the old metadata, never a blind overwrite; documents
outside the id list are untouched, and page contents and ids never
change. -/
theorem c7_amended_mark_processed_merge (col : List ColDoc) (docIds : List String)
    (reportId kind now : String)
    (hall : ∀ i ∈ docIds, ∃ dd ∈ col, dd.id = i)
    (hno : (col.map (fun d => d.id)).Nodup) :
    ((mark_snippets_processed col docIds reportId kind now).2 = docIds.length)
    ∧ ((mark_snippets_processed col docIds reportId kind now).1.length = col.length)
    ∧ ∀ p ∈ col.zip (mark_snippets_processed col docIds reportId kind now).1,
        p.2.id = p.1.id ∧ p.2.content = p.1.content
        ∧ (p.1.id ∈ docIds →
            getKey p.2.meta "processed" = some (.b true)
            ∧ getKey p.2.meta "used_in_report_id" = some (.s reportId)
            ∧ getKey p.2.meta "processed_at" = some (.s now)
            ∧ getKey p.2.meta "kind" = some (.s kind)
            ∧ ∀ k, k ≠ "kind" → k ≠ "processed" → k ≠ "used_in_report_id" →
                k ≠ "processed_at" → getKey p.2.meta k = getKey p.1.meta k)
        ∧ (p.1.id ∉ docIds → p.2 = p.1) := by
  refine ⟨rfl, List.length_map _ _, ?_⟩
  intro p hp
  rw [show (mark_snippets_processed col docIds reportId kind now).1
      = col.map (markUpdate (docIds.zip ((docIds.filterMap (fun i =>
          (col.find? (fun x => x.id == i)).map (fun x => x.meta))).map
            (mergeMeta kind reportId now)))) from rfl, zip_self_map] at hp
  obtain ⟨d, hd, hpd⟩ := List.mem_map.mp hp
  subst hpd
  by_cases hid : d.id ∈ docIds
  · have hfind := mark_pairs_find col docIds reportId kind now hall hno hd hid
    have hupd : markUpdate (docIds.zip ((docIds.filterMap (fun i =>
        (col.find? (fun x => x.id == i)).map (fun x => x.meta))).map
          (mergeMeta kind reportId now))) d
        = { d with meta := mergeMeta kind reportId now d.meta } := by
      unfold markUpdate
      rw [hfind]
    simp only [hupd]
    have hm := mergeMeta_getKey kind reportId now d.meta
    exact ⟨by trivial, by trivial,
      fun _ => ⟨hm.2.2.1, hm.2.1, hm.1, hm.2.2.2.1, hm.2.2.2.2⟩,
      fun hnot => absurd hid hnot⟩
  · have hnone : (docIds.zip ((docIds.filterMap (fun i =>
        (col.find? (fun x => x.id == i)).map (fun x => x.meta))).map
          (mergeMeta kind reportId now))).find? (fun p => p.1 == d.id) = none := by
      rw [List.find?_eq_none]
      intro x hx
      have hx1 := (List.of_mem_zip hx).1
      simp only [beq_iff_eq]
      intro hxd
      exact hid (hxd ▸ hx1)
    have hupd : markUpdate (docIds.zip ((docIds.filterMap (fun i =>
        (col.find? (fun x => x.id == i)).map (fun x => x.meta))).map
          (mergeMeta kind reportId now))) d = d := by
      unfold markUpdate
      rw [hnone]
    simp only [hupd]
    exact ⟨by trivial, by trivial, fun hmem => absurd hmem hid, fun _ => by trivial⟩

/-- Closed witness for C7 (amended) on a two-document store: the targeted
document gets `processed = true` with the given report id, its `title` is
preserved, and the untargeted document is untouched. -/
theorem c7_amended_mark_processed_merge_witness :
    getKey [("kind", MetaVal.s "voicephishing_snippet_v1"), ("title", MetaVal.s "t1"),
        ("processed", MetaVal.b true), ("used_in_report_id", MetaVal.s "r9"),
        ("processed_at", MetaVal.s "t-now")] "processed" = some (MetaVal.b true)
    ∧ getKey [("kind", MetaVal.s "voicephishing_snippet_v1"), ("title", MetaVal.s "t1"),
        ("processed", MetaVal.b true), ("used_in_report_id", MetaVal.s "r9"),
        ("processed_at", MetaVal.s "t-now")] "title"
      = getKey [("kind", MetaVal.s "voicephishing_snippet_v1"),
          ("title", MetaVal.s "t1"), ("processed", MetaVal.b false)] "title" := by
  have h := c7_amended_mark_processed_merge
    [⟨"d1", "c1", [("kind", MetaVal.s "voicephishing_snippet_v1"),
        ("title", MetaVal.s "t1"), ("processed", MetaVal.b false)]⟩,
      ⟨"d2", "c2", [("title", MetaVal.s "t2")]⟩]
    ["d1"] "r9" "voicephishing_snippet_v1" "t-now"
    (by decide) (by decide)
  have hm := h.2.2
    (⟨"d1", "c1", [("kind", MetaVal.s "voicephishing_snippet_v1"),
        ("title", MetaVal.s "t1"), ("processed", MetaVal.b false)]⟩,
      ⟨"d1", "c1", [("kind", MetaVal.s "voicephishing_snippet_v1"),
        ("title", MetaVal.s "t1"), ("processed", MetaVal.b true),
        ("used_in_report_id", MetaVal.s "r9"),
        ("processed_at", MetaVal.s "t-now")]⟩)
    (by decide)
  have hfields := hm.2.2.1 (by decide)
  exact ⟨hfields.1, hfields.2.2.2.2 "title" (by decide) (by decide) (by decide) (by decide)⟩

/-! ## C10 — snippet storage (`store_snippets_only` and
`load_collected_snippets` in `app/tools/agent_tools.py`) -/

/-- One input snippet `{title, url, content}`. -/
structure SnippetIn where
  title : String
  url : String
  content : String
deriving DecidableEq, Repr

/-- The JSON payload `store_snippets_only` serialises into
`page_content`. -/
structure SnippetPayload where
  topic : String
  queryUsed : String
  articleTitle : String
  articleUrl : String
  snippet : String
  createdAt : String
  snippetId : String
deriving DecidableEq, Repr

/-- A snippet document built by `store_snippets_only`. -/
structure SnipDoc where
  payload : SnippetPayload
  meta : Meta
deriving DecidableEq, Repr

/-- Embedding of `store_snippets_only(query_used, snippets, kind)`:
returns the documents added plus the `(stored, skipped)` counters. -/
def store_snippets_only (hash : String → String) (queryUsed now kind : String) :
    List SnippetIn → List SnipDoc × Nat × Nat
  | [] => ([], 0, 0)
  | s :: rest =>
    let title := (pyStrip s.title)
    let url := (pyStrip s.url)
    let content0 := (pyStrip s.content)
    let snippetId := hash url
    if url = "" then
      let r := store_snippets_only hash queryUsed now kind rest
      (r.1, r.2.1, r.2.2 + 1)
    else
      let content := pyTake content0 600
      let payload : SnippetPayload :=
        ⟨"보이스피싱 최신 수법", queryUsed, title, url, content, now, snippetId⟩
      let contentHash := hash (url ++ "|" ++ content)
      let meta : Meta :=
        [("kind", .s kind), ("query", .s queryUsed), ("title", .s (pyTake title 200)),
         ("url", .s url), ("created_at", .s now), ("content_hash", .s contentHash),
         ("snippet_id", .s snippetId), ("processed", .b false),
         ("used_in_report_id", .s "")]
      let r := store_snippets_only hash queryUsed now kind rest
      (⟨payload, meta⟩ :: r.1, r.2.1 + 1, r.2.2)

/-- The `where` filter of `load_collected_snippets`: `kind` must match
and, when `only_unprocessed`, `processed` must equal `False`. -/
def snippetWhere (kind : String) (onlyUnprocessed : Bool) (m : Meta) : Bool :=
  if onlyUnprocessed then
    (getKey m "kind" == some (.s kind)) && (getKey m "processed" == some (.b false))
  else
    getKey m "kind" == some (.s kind)

/-- One item of the list `load_collected_snippets` returns. -/
structure LoadedItem where
  docId : String
  snippetId : Option MetaVal
  title : Option MetaVal
  url : Option MetaVal
  createdAt : Option MetaVal
  payload : SnippetPayload
deriving DecidableEq, Repr

/-- Embedding of `load_collected_snippets(limit, kind, only_unprocessed)`
over a collection of (doc id, snippet document) pairs. -/
def load_collected_snippets (col : List (String × SnipDoc)) (limit : Nat)
    (kind : String) (onlyUnprocessed : Bool) : Nat × List LoadedItem :=
  let selected := (col.filter (fun d => snippetWhere kind onlyUnprocessed d.2.meta)).take limit
  let items := selected.map (fun d =>
    (⟨d.1, getKey d.2.meta "snippet_id", getKey d.2.meta "title", getKey d.2.meta "url",
      getKey d.2.meta "created_at", d.2.payload⟩ : LoadedItem))
  (items.length, items)

theorem store_snippets_counts (hash : String → String) (queryUsed now kind : String) :
    ∀ snippets : List SnippetIn,
      (store_snippets_only hash queryUsed now kind snippets).2.1
          + (store_snippets_only hash queryUsed now kind snippets).2.2
        = snippets.length
      ∧ (store_snippets_only hash queryUsed now kind snippets).2.2
        = (snippets.filter (fun s => decide ((pyStrip s.url) = ""))).length
      ∧ (store_snippets_only hash queryUsed now kind snippets).2.1
        = (store_snippets_only hash queryUsed now kind snippets).1.length := by
  intro snippets
  induction snippets with
  | nil => exact ⟨rfl, rfl, rfl⟩
  | cons s rest ih =>
    obtain ⟨ih1, ih2, ih3⟩ := ih
    by_cases hu : (pyStrip s.url) = ""
    · simp only [store_snippets_only]
      rw [if_pos hu]
      refine ⟨?_, ?_, ?_⟩
      · show (store_snippets_only hash queryUsed now kind rest).2.1
            + ((store_snippets_only hash queryUsed now kind rest).2.2 + 1)
          = rest.length + 1
        omega
      · show (store_snippets_only hash queryUsed now kind rest).2.2 + 1
          = (List.filter (fun s => decide ((pyStrip s.url) = "")) (s :: rest)).length
        rw [List.filter_cons_of_pos (by simp [hu])]
        simp only [List.length_cons]
        omega
      · exact ih3
    · simp only [store_snippets_only]
      rw [if_neg hu]
      refine ⟨?_, ?_, ?_⟩
      · show ((store_snippets_only hash queryUsed now kind rest).2.1 + 1)
            + (store_snippets_only hash queryUsed now kind rest).2.2
          = rest.length + 1
        omega
      · show (store_snippets_only hash queryUsed now kind rest).2.2
          = (List.filter (fun s => decide ((pyStrip s.url) = "")) (s :: rest)).length
        rw [List.filter_cons_of_neg (by simp [hu])]
        exact ih2
      · show (store_snippets_only hash queryUsed now kind rest).2.1 + 1
          = ((⟨_, _⟩ : SnipDoc) :: (store_snippets_only hash queryUsed now kind rest).1).length
        simp only [List.length_cons]
        omega

theorem store_snippets_mem (hash : String → String) (queryUsed now kind : String) :
    ∀ snippets : List SnippetIn,
      ∀ d ∈ (store_snippets_only hash queryUsed now kind snippets).1,
        (∃ s ∈ snippets, d.payload.articleUrl = (pyStrip s.url)
            ∧ d.payload.snippet = pyTake (pyStrip s.content) 600)
        ∧ getKey d.meta "processed" = some (.b false)
        ∧ getKey d.meta "used_in_report_id" = some (.s "")
        ∧ getKey d.meta "url" = some (.s d.payload.articleUrl)
        ∧ getKey d.meta "snippet_id" = some (.s (hash d.payload.articleUrl))
        ∧ d.payload.snippet.length ≤ 600
        ∧ snippetWhere kind true d.meta = true := by
  intro snippets
  induction snippets with
  | nil => intro d hd; cases hd
  | cons s rest ih =>
    intro d hd
    by_cases hu : (pyStrip s.url) = ""
    · simp only [store_snippets_only] at hd
      rw [if_pos hu] at hd
      obtain ⟨hex, hrest⟩ := ih d hd
      exact ⟨by obtain ⟨s', hs', hp⟩ := hex; exact ⟨s', List.mem_cons_of_mem s hs', hp⟩,
        hrest⟩
    · simp only [store_snippets_only] at hd
      rw [if_neg hu] at hd
      rcases List.mem_cons.mp hd with h | h
      · subst h
        refine ⟨⟨s, List.mem_cons_self s rest, rfl, rfl⟩, rfl, rfl, rfl, rfl,
          pyTake_length_le _ _, ?_⟩
        have hkind : getKey
            [("kind", MetaVal.s kind), ("query", MetaVal.s queryUsed),
             ("title", MetaVal.s (pyTake (pyStrip s.title) 200)), ("url", MetaVal.s (pyStrip s.url)),
             ("created_at", MetaVal.s now),
             ("content_hash", MetaVal.s (hash ((pyStrip s.url) ++ "|" ++ pyTake (pyStrip s.content) 600))),
             ("snippet_id", MetaVal.s (hash (pyStrip s.url))), ("processed", MetaVal.b false),
             ("used_in_report_id", MetaVal.s "")] "kind" = some (MetaVal.s kind) := rfl
        simp [snippetWhere, hkind]
        rfl
      · obtain ⟨hex, hrest⟩ := ih d h
        exact ⟨by obtain ⟨s', hs', hp⟩ := hex; exact ⟨s', List.mem_cons_of_mem s hs', hp⟩,
          hrest⟩

/-- C10: for every call to `store_snippets_only` with input list `S`, the
returned `stored` and `skipped` counts sum to `len(S)`; exactly the entries
whose (stripped) URL is empty are skipped; `stored` equals the number of
documents created; and every stored document carries metadata
`processed = False`, `used_in_report_id = ""`, `snippet_id` equal to the
hash of its URL, with its stored snippet content the 600-character
truncation of the input content — so every freshly stored snippet
satisfies the `where` filter `load_collected_snippets(only_unprocessed=True)`
selects by. -/
theorem c10_snippet_storage_invariant (hash : String → String)
    (queryUsed now kind : String) (snippets : List SnippetIn) :
    ((store_snippets_only hash queryUsed now kind snippets).2.1
        + (store_snippets_only hash queryUsed now kind snippets).2.2
      = snippets.length)
    ∧ ((store_snippets_only hash queryUsed now kind snippets).2.2
      = (snippets.filter (fun s => decide ((pyStrip s.url) = ""))).length)
    ∧ ((store_snippets_only hash queryUsed now kind snippets).2.1
      = (store_snippets_only hash queryUsed now kind snippets).1.length)
    ∧ (∀ d ∈ (store_snippets_only hash queryUsed now kind snippets).1,
        (∃ s ∈ snippets, d.payload.articleUrl = (pyStrip s.url)
            ∧ d.payload.snippet = pyTake (pyStrip s.content) 600)
        ∧ getKey d.meta "processed" = some (.b false)
        ∧ getKey d.meta "used_in_report_id" = some (.s "")
        ∧ getKey d.meta "url" = some (.s d.payload.articleUrl)
        ∧ getKey d.meta "snippet_id" = some (.s (hash d.payload.articleUrl))
        ∧ d.payload.snippet.length ≤ 600
        ∧ snippetWhere kind true d.meta = true) := by
  obtain ⟨h1, h2, h3⟩ := store_snippets_counts hash queryUsed now kind snippets
  exact ⟨h1, h2, h3, store_snippets_mem hash queryUsed now kind snippets⟩

/-- Closed witness for C10 on a two-entry batch (one empty URL): counts sum
to 2, exactly one skip, and the stored document is in the unprocessed state
the loader selects. -/
theorem c10_snippet_storage_invariant_witness :
    ((store_snippets_only id "q" "t0" "voicephishing_snippet_v1"
        [⟨"t1", "http://a", "body"⟩, ⟨"t2", "", "x"⟩]).2.1
      + (store_snippets_only id "q" "t0" "voicephishing_snippet_v1"
          [⟨"t1", "http://a", "body"⟩, ⟨"t2", "", "x"⟩]).2.2 = 2)
    ∧ getKey [("kind", MetaVal.s "voicephishing_snippet_v1"), ("query", MetaVal.s "q"),
        ("title", MetaVal.s "t1"), ("url", MetaVal.s "http://a"),
        ("created_at", MetaVal.s "t0"), ("content_hash", MetaVal.s "http://a|body"),
        ("snippet_id", MetaVal.s "http://a"), ("processed", MetaVal.b false),
        ("used_in_report_id", MetaVal.s "")] "processed" = some (MetaVal.b false)
    ∧ snippetWhere "voicephishing_snippet_v1" true
        [("kind", MetaVal.s "voicephishing_snippet_v1"), ("query", MetaVal.s "q"),
         ("title", MetaVal.s "t1"), ("url", MetaVal.s "http://a"),
         ("created_at", MetaVal.s "t0"), ("content_hash", MetaVal.s "http://a|body"),
         ("snippet_id", MetaVal.s "http://a"), ("processed", MetaVal.b false),
         ("used_in_report_id", MetaVal.s "")] = true := by
  have h := c10_snippet_storage_invariant id "q" "t0" "voicephishing_snippet_v1"
    [⟨"t1", "http://a", "body"⟩, ⟨"t2", "", "x"⟩]
  have hd := h.2.2.2
    ⟨⟨"보이스피싱 최신 수법", "q", "t1", "http://a", "body", "t0", "http://a"⟩,
      [("kind", MetaVal.s "voicephishing_snippet_v1"), ("query", MetaVal.s "q"),
       ("title", MetaVal.s "t1"), ("url", MetaVal.s "http://a"),
       ("created_at", MetaVal.s "t0"), ("content_hash", MetaVal.s "http://a|body"),
       ("snippet_id", MetaVal.s "http://a"), ("processed", MetaVal.b false),
       ("used_in_report_id", MetaVal.s "")]⟩
    (by decide)
  exact ⟨h.1, hd.2.1, hd.2.2.2.2.2.2⟩

/-! ## C5 / C9 — SearchCollector (`web_search_snippets` in
`app/tools/agent_tools.py`; `WebSearcher._collect_urls` in
`app/services/searcher.py`) -/

/-- A raw Tavily search result `{title, url, content, score}`. -/
structure RawResult where
  title : String
  url : String
  content : String
  score : Option ℚ
deriving DecidableEq, Repr

/-- Embedding of the `_is_hub_url` heuristic: lowercase, strip trailing
slashes, then test the hub/listing-page patterns. -/
def isHubUrl (u0 : String) : Bool :=
  let u := rstripSlashes (pyLower u0)
  if ["/tag/", "/tags/", "/topic/", "/topics/"].any (fun x => strContains u x) then
    true
  else if ["/news", "/crypto/bitcoin/news", "/symbols/btcusd/news"].any
      (fun x => strEndsWith u x) then
    true
  else if u = "https://coinness.com" ∨ u = "https://coinness.com/" then true
  else false

/-- The query-expansion family of `web_search_snippets`. -/
def variantQueries (query : String) : List String :=
  [query, query ++ " 기관 사칭", query ++ " 가족 사칭",
   query ++ " 스미싱 문자 링크", query ++ " 앱 설치 유도"]

/-- The per-result inner loop of `web_search_snippets`: skip empty or hub
URLs, deduplicate by stripped URL through the `seen` set (first occurrence
wins); returns the kept results and the updated `seen` set. -/
def dedupStep : List RawResult → List String → List RawResult × List String
  | [], seen => ([], seen)
  | r :: rest, seen =>
    let url := pyStrip r.url
    if url = "" ∨ isHubUrl url = true then dedupStep rest seen
    else if url ∈ seen then dedupStep rest seen
    else
      let p := dedupStep rest (url :: seen)
      (r :: p.1, p.2)

/-- The query loop of `web_search_snippets`: one search call per variant
query, all feeding one `seen` set.  There is no per-query exception
handler, so a raised search exception propagates out of the whole
collection. -/
def collectAll (search : String → Except String (List RawResult)) :
    List String → List String → Except String (List RawResult)
  | [], _ => .ok []
  | q :: qs, seen =>
    match search q with
    | .error e => .error e
    | .ok results =>
      let p := dedupStep results seen
      match collectAll search qs p.2 with
      | .error e => .error e
      | .ok restPicked => .ok (p.1 ++ restPicked)

/-- A cleaned snippet entry returned to the model. -/
structure Cleaned where
  title : String
  url : String
  content : String
  score : Option ℚ
deriving DecidableEq, Repr

/-- Python `l[-n:]`. -/
def lastN {α : Type _} (n : Nat) (l : List α) : List α := l.drop (l.length - n)

/-- Embedding of `web_search_snippets(query, ..., max_results)`: collect
over the variant queries (hub filter + URL dedup), prefer the fresh pool
(URLs not in the recent cache) when it has at least `max_results` entries,
shuffle, take `max_results`, clean, and append the picked URLs to the
200-entry recent cache.  Returns the cleaned list and the updated cache, or
the propagated search exception. -/
def web_search_snippets (search : String → Except String (List RawResult))
    (shuffle : List RawResult → List RawResult) (recentUrls : List String)
    (query : String) (maxResults : Nat) :
    Except String (List Cleaned × List String) :=
  match collectAll search (variantQueries query) [] with
  | .error e => .error e
  | .ok allResults =>
    let freshPool := allResults.filter
      (fun r => decide (pyStrip r.url ≠ "" ∧ pyStrip r.url ∉ recentUrls))
    let pool := if maxResults ≤ freshPool.length then freshPool else allResults
    let picked := (shuffle pool).take maxResults
    let cleaned := picked.map (fun r =>
      (⟨pyStrip r.title, pyStrip r.url, pyTake (pyStrip r.content) 800, r.score⟩ : Cleaned))
    let pickedUrls := (picked.map (fun r => pyStrip r.url)).filter (fun u => decide (u ≠ ""))
    .ok (cleaned, lastN 200 (recentUrls ++ pickedUrls))

/-- An URL item collected by `WebSearcher._collect_urls`. -/
structure UrlItem where
  url : String
  title : String
  snippet : String
  query : String
deriving DecidableEq, Repr

/-- Embedding of `WebSearcher._collect_urls(queries)`: each query's search
call is wrapped in its own exception handler — a failing query contributes
nothing and collection continues; per query at most `max_results_per_query`
results are kept, empty URLs dropped. -/
def collectUrls (search : String → Except String (List RawResult))
    (maxPerQuery : Nat) : List String → List UrlItem
  | [] => []
  | q :: qs =>
    let items := match search q with
      | .error _ => []
      | .ok results =>
        (results.take maxPerQuery).filterMap (fun r =>
          let url := pyStrip r.url
          if url = "" then none
          else some ⟨url, pyTake r.title 150, pyTake r.content 500, q⟩)
    items ++ collectUrls search maxPerQuery qs

theorem dedupStep_spec : ∀ (l : List RawResult) (seen : List String),
    (∀ r ∈ (dedupStep l seen).1,
        pyStrip r.url ≠ "" ∧ isHubUrl (pyStrip r.url) = false
          ∧ pyStrip r.url ∉ seen ∧ pyStrip r.url ∈ (dedupStep l seen).2)
    ∧ ((dedupStep l seen).1.map (fun r => pyStrip r.url)).Nodup
    ∧ (∀ x ∈ seen, x ∈ (dedupStep l seen).2) := by
  intro l
  induction l with
  | nil =>
    intro seen
    refine ⟨?_, ?_, ?_⟩ <;> simp [dedupStep]
  | cons r rest ih =>
    intro seen
    by_cases h1 : pyStrip r.url = "" ∨ isHubUrl (pyStrip r.url) = true
    · simp only [dedupStep, if_pos h1]
      exact ih seen
    · by_cases h2 : pyStrip r.url ∈ seen
      · simp only [dedupStep, if_neg h1, if_pos h2]
        exact ih seen
      · simp only [dedupStep, if_neg h1, if_neg h2]
        obtain ⟨iha, ihb, ihc⟩ := ih (pyStrip r.url :: seen)
        push_neg at h1
        refine ⟨?_, ?_, ?_⟩
        · intro r' hr'
          rcases List.mem_cons.mp hr' with h | h
          · subst h
            exact ⟨h1.1, by simpa using h1.2, h2, ihc _ (List.mem_cons_self _ _)⟩
          · obtain ⟨p1, p2, p3, p4⟩ := iha r' h
            exact ⟨p1, p2, fun hmem => p3 (List.mem_cons_of_mem _ hmem), p4⟩
        · rw [List.map_cons, List.nodup_cons]
          refine ⟨?_, ihb⟩
          intro hmem
          obtain ⟨r', hr', hurl⟩ := List.mem_map.mp hmem
          obtain ⟨_, _, p3, _⟩ := iha r' hr'
          apply p3
          rw [hurl]
          exact List.mem_cons_self _ _
        · intro x hx
          exact ihc x (List.mem_cons_of_mem _ hx)

theorem collectAll_spec (search : String → Except String (List RawResult)) :
    ∀ (qs : List String) (seen : List String) (all : List RawResult),
      collectAll search qs seen = .ok all →
      (∀ r ∈ all, pyStrip r.url ≠ "" ∧ isHubUrl (pyStrip r.url) = false
          ∧ pyStrip r.url ∉ seen)
      ∧ (all.map (fun r => pyStrip r.url)).Nodup := by
  intro qs
  induction qs with
  | nil =>
    intro seen all h
    simp only [collectAll] at h
    have hall := Except.ok.inj h
    subst hall
    exact ⟨by simp, by simp⟩
  | cons q qs ih =>
    intro seen all h
    simp only [collectAll] at h
    cases hsq : search q with
    | error e => rw [hsq] at h; cases h
    | ok results =>
      rw [hsq] at h
      simp only [] at h
      cases hca : collectAll search qs (dedupStep results seen).2 with
      | error e => rw [hca] at h; cases h
      | ok restPicked =>
        rw [hca] at h
        simp only [] at h
        have hall := Except.ok.inj h
        subst hall
        obtain ⟨ds1, ds2, ds3⟩ := dedupStep_spec results seen
        obtain ⟨ih1, ih2⟩ := ih (dedupStep results seen).2 restPicked hca
        refine ⟨?_, ?_⟩
        · intro r hr
          rcases List.mem_append.mp hr with hm | hm
          · obtain ⟨p1, p2, p3, _⟩ := ds1 r hm
            exact ⟨p1, p2, p3⟩
          · obtain ⟨p1, p2, p3⟩ := ih1 r hm
            exact ⟨p1, p2, fun hs => p3 (ds3 _ hs)⟩
        · rw [List.map_append, List.nodup_append]
          refine ⟨ds2, ih2, ?_⟩
          intro x hx1 hx2
          obtain ⟨r1, hr1, hu1⟩ := List.mem_map.mp hx1
          obtain ⟨r2, hr2, hu2⟩ := List.mem_map.mp hx2
          obtain ⟨_, _, _, p4⟩ := ds1 r1 hr1
          obtain ⟨_, _, p3'⟩ := ih1 r2 hr2
          apply p3'
          rw [hu2, ← hu1]
          exact p4

theorem dedupStep_find_first (u : String) :
    ∀ (l : List RawResult) (seen : List String), u ∉ seen →
      ((dedupStep l seen).1.find? (fun r => pyStrip r.url == u))
        = ((l.filter (fun r =>
            decide (¬(pyStrip r.url = "" ∨ isHubUrl (pyStrip r.url) = true)))).find?
              (fun r => pyStrip r.url == u)) := by
  intro l
  induction l with
  | nil => intro seen _; rfl
  | cons r rest ih =>
    intro seen hu
    by_cases h1 : pyStrip r.url = "" ∨ isHubUrl (pyStrip r.url) = true
    · simp only [dedupStep, if_pos h1]
      rw [List.filter_cons_of_neg (by simp [h1])]
      exact ih seen hu
    · by_cases h2 : pyStrip r.url ∈ seen
      · simp only [dedupStep, if_neg h1, if_pos h2]
        rw [List.filter_cons_of_pos (by simp [h1])]
        have hne : (pyStrip r.url == u) = false := by
          rw [beq_eq_false_iff_ne]
          intro heq
          exact hu (heq ▸ h2)
        rw [List.find?]
        simp only [hne]
        exact ih seen hu
      · simp only [dedupStep, if_neg h1, if_neg h2]
        rw [List.filter_cons_of_pos (by simp [h1])]
        by_cases hru : (pyStrip r.url == u) = true
        · rw [List.find?, List.find?]
          simp only [hru]
        · have hru' : (pyStrip r.url == u) = false := by
            revert hru
            cases pyStrip r.url == u <;> simp
          rw [List.find?, List.find?]
          simp only [hru']
          apply ih
          intro hmem
          rcases List.mem_cons.mp hmem with hm | hm
          · rw [beq_eq_false_iff_ne] at hru'
            exact hru' hm.symm
          · exact hu hm

theorem picked_props (shuffle : List RawResult → List RawResult)
    (hshuffle : ∀ l, (shuffle l).Perm l)
    (allResults pool : List RawResult) (maxResults : Nat)
    (hsub : pool ⊆ allResults)
    (hnd : (pool.map (fun r => pyStrip r.url)).Nodup)
    (hall1 : ∀ r ∈ allResults, pyStrip r.url ≠ "" ∧ isHubUrl (pyStrip r.url) = false) :
    (((shuffle pool).take maxResults).map (fun r =>
        (⟨pyStrip r.title, pyStrip r.url, pyTake (pyStrip r.content) 800,
          r.score⟩ : Cleaned))).length ≤ maxResults
    ∧ (∀ c ∈ ((shuffle pool).take maxResults).map (fun r =>
        (⟨pyStrip r.title, pyStrip r.url, pyTake (pyStrip r.content) 800,
          r.score⟩ : Cleaned)),
        c.url ≠ "" ∧ isHubUrl c.url = false)
    ∧ ((((shuffle pool).take maxResults).map (fun r =>
        (⟨pyStrip r.title, pyStrip r.url, pyTake (pyStrip r.content) 800,
          r.score⟩ : Cleaned))).map (fun c => c.url)).Nodup
    ∧ (maxResults ≤ pool.length →
        (((shuffle pool).take maxResults).map (fun r =>
          (⟨pyStrip r.title, pyStrip r.url, pyTake (pyStrip r.content) 800,
            r.score⟩ : Cleaned))).length = maxResults) := by
  have hlen : (((shuffle pool).take maxResults).map (fun r =>
      (⟨pyStrip r.title, pyStrip r.url, pyTake (pyStrip r.content) 800,
        r.score⟩ : Cleaned))).length = min maxResults (shuffle pool).length := by
    rw [List.length_map, List.length_take]
  refine ⟨?_, ?_, ?_, ?_⟩
  · rw [hlen]
    exact Nat.min_le_left _ _
  · intro c hc
    obtain ⟨r, hr, hcr⟩ := List.mem_map.mp hc
    have hrp : r ∈ pool :=
      ((hshuffle pool).mem_iff).mp (List.mem_of_mem_take hr)
    obtain ⟨p1, p2⟩ := hall1 r (hsub hrp)
    subst hcr
    exact ⟨p1, p2⟩
  · rw [List.map_map]
    have hfun : ((fun c : Cleaned => c.url) ∘ (fun r : RawResult =>
        (⟨pyStrip r.title, pyStrip r.url, pyTake (pyStrip r.content) 800,
          r.score⟩ : Cleaned))) = (fun r : RawResult => pyStrip r.url) := rfl
    rw [hfun]
    have hperm : ((shuffle pool).map (fun r => pyStrip r.url)).Perm
        (pool.map (fun r => pyStrip r.url)) := (hshuffle pool).map _
    have hnd2 : ((shuffle pool).map (fun r => pyStrip r.url)).Nodup :=
      (hperm.nodup_iff).mpr hnd
    have hsubl : (((shuffle pool).take maxResults).map (fun r => pyStrip r.url)).Sublist
        ((shuffle pool).map (fun r => pyStrip r.url)) :=
      (List.take_sublist _ _).map _
    exact hnd2.sublist hsubl
  · intro hle
    rw [hlen, (hshuffle pool).length_eq]
    exact Nat.min_eq_left hle

/-- C5: search-collector selection invariants of `web_search_snippets`.
Whenever the call returns (no search exception), the returned list has at
most `max_results` entries; every returned URL is non-empty and passes the
hub/listing-page filter; returned URLs are pairwise distinct, and within
the dedup pass the representative kept for a URL is the first passing
occurrence across the variant queries (the `find?` equation on
`dedupStep`); when the fresh subset (URLs absent from the recent cache) has
at least `max_results` elements it is the sampling pool — so no returned
URL is in the cache — and otherwise the full deduplicated pool is sampled,
which still yields exactly `max_results` entries whenever the full pool is
large enough. -/
theorem c5_search_collector_invariants
    (search : String → Except String (List RawResult))
    (shuffle : List RawResult → List RawResult)
    (recentUrls : List String) (query : String) (maxResults : Nat)
    (out : List Cleaned) (cache' : List String)
    (hshuffle : ∀ l, (shuffle l).Perm l)
    (hok : web_search_snippets search shuffle recentUrls query maxResults
      = .ok (out, cache')) :
    out.length ≤ maxResults
    ∧ (∀ c ∈ out, c.url ≠ "" ∧ isHubUrl c.url = false)
    ∧ (out.map (fun c => c.url)).Nodup
    ∧ (∀ allResults, collectAll search (variantQueries query) [] = .ok allResults →
        (maxResults ≤ (allResults.filter
            (fun r => decide (pyStrip r.url ≠ "" ∧ pyStrip r.url ∉ recentUrls))).length →
          ∀ c ∈ out, c.url ∉ recentUrls)
        ∧ (maxResults ≤ allResults.length → out.length = maxResults))
    ∧ (∀ (l : List RawResult) (seen : List String) (u : String), u ∉ seen →
        ((dedupStep l seen).1.find? (fun r => pyStrip r.url == u))
          = ((l.filter (fun r =>
              decide (¬(pyStrip r.url = "" ∨ isHubUrl (pyStrip r.url) = true)))).find?
                (fun r => pyStrip r.url == u))) := by
  cases hca : collectAll search (variantQueries query) [] with
  | error e =>
    exfalso
    simp only [web_search_snippets, hca] at hok
    cases hok
  | ok allResults =>
    simp only [web_search_snippets, hca] at hok
    have hpair := Except.ok.inj hok
    have hout : out = ((shuffle (if maxResults ≤ (allResults.filter
        (fun r => decide (pyStrip r.url ≠ "" ∧ pyStrip r.url ∉ recentUrls))).length
      then allResults.filter
        (fun r => decide (pyStrip r.url ≠ "" ∧ pyStrip r.url ∉ recentUrls))
      else allResults)).take maxResults).map (fun r =>
        (⟨pyStrip r.title, pyStrip r.url, pyTake (pyStrip r.content) 800,
          r.score⟩ : Cleaned)) := (congrArg Prod.fst hpair).symm
    obtain ⟨hall1', hall2⟩ := collectAll_spec search (variantQueries query) [] allResults hca
    have hall1 : ∀ r ∈ allResults, pyStrip r.url ≠ "" ∧ isHubUrl (pyStrip r.url) = false :=
      fun r hr => ⟨(hall1' r hr).1, (hall1' r hr).2.1⟩
    by_cases hfresh : maxResults ≤ (allResults.filter
        (fun r => decide (pyStrip r.url ≠ "" ∧ pyStrip r.url ∉ recentUrls))).length
    · rw [if_pos hfresh] at hout
      have hpp := picked_props shuffle hshuffle allResults
        (allResults.filter
          (fun r => decide (pyStrip r.url ≠ "" ∧ pyStrip r.url ∉ recentUrls)))
        maxResults (fun x hx => List.mem_of_mem_filter hx)
        ((List.filter_sublist _).map _ |>.nodup hall2) hall1
      refine ⟨hout ▸ hpp.1, hout ▸ hpp.2.1, hout ▸ hpp.2.2.1, ?_,
        fun l seen u hu => dedupStep_find_first u l seen hu⟩
      intro allResults' hca'
      have hsame : allResults' = allResults := (Except.ok.inj hca').symm
      rw [hsame]
      constructor
      · intro _ c hc
        rw [hout] at hc
        obtain ⟨r, hr, hcr⟩ := List.mem_map.mp hc
        have hrp : r ∈ allResults.filter
            (fun r => decide (pyStrip r.url ≠ "" ∧ pyStrip r.url ∉ recentUrls)) :=
          ((hshuffle _).mem_iff).mp (List.mem_of_mem_take hr)
        have hprop := of_decide_eq_true (List.mem_filter.mp hrp).2
        subst hcr
        exact hprop.2
      · intro _
        rw [hout]
        exact hpp.2.2.2 hfresh
    · rw [if_neg hfresh] at hout
      have hpp := picked_props shuffle hshuffle allResults allResults maxResults
        (fun _ h => h) hall2 hall1
      refine ⟨hout ▸ hpp.1, hout ▸ hpp.2.1, hout ▸ hpp.2.2.1, ?_,
        fun l seen u hu => dedupStep_find_first u l seen hu⟩
      intro allResults' hca'
      have hsame : allResults' = allResults := (Except.ok.inj hca').symm
      rw [hsame]
      exact ⟨fun hf => absurd hf hfresh, fun hle => by rw [hout]; exact hpp.2.2.2 hle⟩

/-- Closed witness for C5: a single candidate URL across all variant
queries yields one deduplicated, non-hub result within the bound. -/
theorem c5_search_collector_invariants_witness :
    ([(⟨"T", "http://x/a", "c", none⟩ : Cleaned)] : List Cleaned).length ≤ 2
    ∧ isHubUrl "http://x/a" = false := by
  have h := c5_search_collector_invariants
    (fun _ => .ok [⟨"T", "http://x/a", "c", none⟩]) id [] "q" 2
    [⟨"T", "http://x/a", "c", none⟩] ["http://x/a"]
    (fun l => List.Perm.refl l) (by rfl)
  exact ⟨h.1, (h.2.1 ⟨"T", "http://x/a", "c", none⟩ (List.mem_singleton_self _)).2⟩

/-- Counterexample to C9 as stated: in `web_search_snippets` there is no
per-query exception handler, so a variant query that raises is NOT skipped
— the exception propagates and the whole collection fails instead of
continuing with the remaining variant queries (which here all succeed). -/
theorem c9_counterexample_variant_failure_propagates :
    web_search_snippets
      (fun q => if q = "q 기관 사칭" then .error "rate limited"
                else .ok [⟨"T", "http://x/a", "c", none⟩])
      id [] "q" 5
      = .error "rate limited" := by rfl

/-- C9 (amended): in `WebSearcher._collect_urls` a failed individual
search call is skipped and collection continues with the remaining
queries, and when all queries fail the collector returns an empty list
rather than raising; `web_search_snippets`, by contrast, propagates an
exception raised by any variant query (in particular by the first). -/
theorem c9_amended_search_failure_handling :
    (∀ (search : String → Except String (List RawResult)) (maxPerQuery : Nat)
        (qs1 qs2 : List String) (q e : String), search q = .error e →
        collectUrls search maxPerQuery (qs1 ++ q :: qs2)
          = collectUrls search maxPerQuery (qs1 ++ qs2))
    ∧ (∀ (search : String → Except String (List RawResult)) (maxPerQuery : Nat)
        (qs : List String), (∀ q ∈ qs, ∃ e, search q = .error e) →
        collectUrls search maxPerQuery qs = [])
    ∧ (∀ (search : String → Except String (List RawResult))
        (shuffle : List RawResult → List RawResult) (recentUrls : List String)
        (query : String) (maxResults : Nat) (e : String),
        search query = .error e →
        web_search_snippets search shuffle recentUrls query maxResults = .error e) := by
  refine ⟨?_, ?_, ?_⟩
  · intro search maxPer qs1 qs2 q e he
    induction qs1 with
    | nil => simp [collectUrls, he]
    | cons q1 t ih =>
      simp only [List.cons_append, collectUrls]
      congr 1
  · intro search maxPer qs hall
    induction qs with
    | nil => rfl
    | cons q t ih =>
      obtain ⟨e, he⟩ := hall q (List.mem_cons_self q t)
      simp only [collectUrls, he]
      simpa using ih (fun q' hq' => hall q' (List.mem_cons_of_mem q hq'))
  · intro search shuffle recentUrls query maxResults e he
    simp [web_search_snippets, variantQueries, collectAll, he]

/-- Closed witness for C9 (amended): a search client that always raises
yields an empty `_collect_urls` result, while `web_search_snippets`
propagates the error. -/
theorem c9_amended_search_failure_handling_witness :
    collectUrls (fun _ => .error "down") 3 ["a", "b"] = []
    ∧ web_search_snippets (fun _ => .error "down") id [] "q" 5 = .error "down" := by
  have h := c9_amended_search_failure_handling
  exact ⟨h.2.1 (fun _ => .error "down") 3 ["a", "b"] (fun q _ => ⟨"down", rfl⟩),
    h.2.2 (fun _ => .error "down") id [] "q" 5 "down" rfl⟩

end VPWeb
